import Mathlib

/-!
Shallow embedding of the card repository and relationship synchronizer of
`src/app.js` (DataStore class and the mutual-connection methods of the UI
controller), together with theorems checking the specification's claims.

Modelling conventions:
* JS card ids (opaque strings from `generateId`) are modelled as `Nat`;
  the id `0` plays the role of a falsy ("empty string") id.
* JS `number` values are `Option Int`: `none` models `undefined`, and JS
  truthiness of a number (`!card.number`) is `none` or `some 0`.
* Timestamps (`Date.now`, `toISOString`) are `Nat` values passed in as a
  `now` parameter; `generateId` results are passed in as explicit fresh ids.
* A relationship field that is absent on a JS card behaves exactly like the
  empty array in every operation modelled here (the code guards each access
  with `if (card.field)` or initialises it to `[]` before use), so the seven
  relationship fields are plain `List Nat`.
* Free-form content is represented by the `resumo` string field, which the
  repository stores without interpreting.
-/

/-- The seven relationship fields a card can carry (`connectionFields` in
`removeMutualConnection` of src/app.js). -/
inductive RField where
  | relatedLocations
  | relatedCharacters
  | relatedEvents
  | adjacentLocations
  | presentCharacters
  | presentLocations
  | bonds
deriving DecidableEq, Repr, Fintype

/-- A card of the store (`DataStore.cards` elements in src/app.js).  The
`type` is a plain string because the code compares it with `===` against the
literals `"evento"`, `"local"`, `"personagem"` and never restricts it. -/
structure Card where
  id : Nat
  type : String
  number : Option Int
  name : String
  createdAt : Nat
  updatedAt : Nat
  resumo : String
  relatedLocations : List Nat
  relatedCharacters : List Nat
  relatedEvents : List Nat
  adjacentLocations : List Nat
  presentCharacters : List Nat
  presentLocations : List Nat
  bonds : List Nat
deriving DecidableEq, Repr

/-- Read one relationship field of a card. -/
def getF (c : Card) : RField → List Nat
  | .relatedLocations => c.relatedLocations
  | .relatedCharacters => c.relatedCharacters
  | .relatedEvents => c.relatedEvents
  | .adjacentLocations => c.adjacentLocations
  | .presentCharacters => c.presentCharacters
  | .presentLocations => c.presentLocations
  | .bonds => c.bonds

/-- Replace one relationship field of a card. -/
def setF (c : Card) : RField → List Nat → Card
  | .relatedLocations, l => { c with relatedLocations := l }
  | .relatedCharacters, l => { c with relatedCharacters := l }
  | .relatedEvents, l => { c with relatedEvents := l }
  | .adjacentLocations, l => { c with adjacentLocations := l }
  | .presentCharacters, l => { c with presentCharacters := l }
  | .presentLocations, l => { c with presentLocations := l }
  | .bonds, l => { c with bonds := l }

/-- The store owned by the `DataStore` class.  The navigation history is not
modelled: no checked claim mentions it. -/
structure DataStore where
  cards : List Card
deriving DecidableEq, Repr

/-- JS truthiness of a possibly-absent number (`cardData.number` used as a
condition): `undefined`, and `0`, are falsy. -/
def truthyNum : Option Int → Bool
  | none => false
  | some n => n != 0

/-- JS test `card.number >= m` where `number` may be `undefined` (comparison
with `undefined` is false). -/
def geNum : Option Int → Int → Bool
  | none, _ => false
  | some n, m => n ≥ m

/-- JS `card.number || 0`. -/
def numOr0 : Option Int → Int
  | none => 0
  | some n => n

/-- `DataStore.getNextNumber(type)` of src/app.js:
returns 1 when no card of the type exists, otherwise
`Math.max(...cardsOfType.map(c => c.number || 0)) + 1`. -/
def getNextNumber (s : DataStore) (type : String) : Int :=
  let cardsOfType := s.cards.filter (fun c => c.type = type)
  match cardsOfType with
  | [] => 1
  | c :: rest => rest.foldl (fun acc x => max acc (numOr0 x.number)) (numOr0 c.number) + 1

/-- Effect of `reorganizeNumbers` on one card: a card of the type, other than
the excluded one, whose `number >= newNumber` gets `number + 1` and a fresh
`updatedAt`. -/
def shiftCard (type : String) (newNumber : Int) (excludeId : Option Nat)
    (now : Nat) (c : Card) : Card :=
  if c.type = type ∧ excludeId ≠ some c.id ∧ geNum c.number newNumber then
    { c with number := some (numOr0 c.number + 1), updatedAt := now }
  else c

/-- `DataStore.reorganizeNumbers(type, newNumber, excludeId)` of src/app.js.
The source first sorts the affected cards ascending by number, but each shift
is an independent in-place mutation of one card, so a single pass over the
store produces the same final state. -/
def reorganizeNumbers (s : DataStore) (type : String) (newNumber : Int)
    (excludeId : Option Nat) (now : Nat) : DataStore :=
  { cards := s.cards.map (shiftCard type newNumber excludeId now) }

/-- The argument of `DataStore.createCard` (the `cardData` object built by the
form layer).  `id`, `createdAt`, `updatedAt` are `Option`s because the object
spread in `createCard` lets such fields of the input override the stamped
values when they are present. -/
structure CardData where
  id : Option Nat
  type : String
  number : Option Int
  name : String
  createdAt : Option Nat
  updatedAt : Option Nat
  resumo : String
  relatedLocations : List Nat
  relatedCharacters : List Nat
  relatedEvents : List Nat
  adjacentLocations : List Nat
  presentCharacters : List Nat
  presentLocations : List Nat
  bonds : List Nat
deriving DecidableEq, Repr

/-- `DataStore.createCard(cardData)` of src/app.js.  `newId` models the
`generateId()` result and `now` the `new Date().toISOString()` stamps.
Mirrors the source: an absent or `< 1` number is replaced by `getNextNumber`;
an explicit number that collides with an existing card of the same type
triggers `reorganizeNumbers`; the new card is
`{ id: generateId(), createdAt: now, updatedAt: now, ...cardData }`, so fields
present in `cardData` (id and timestamps included) win over the stamps. -/
def createCard (s : DataStore) (d : CardData) (newId : Nat) (now : Nat) :
    DataStore × Card :=
  let numberInvalid := ¬ truthyNum d.number ∨ geNum d.number 1 = false
  -- `!cardData.number || cardData.number < 1`; for a present number n this is
  -- n = 0 ∨ n < 1, i.e. n < 1.
  let resolvedNumber : Option Int :=
    if numberInvalid then some (getNextNumber s d.type) else d.number
  let s1 :=
    if numberInvalid then s
    else if s.cards.any (fun c => c.type = d.type ∧ c.number = d.number) then
      reorganizeNumbers s d.type (numOr0 d.number) none now
    else s
  let card : Card :=
    { id := d.id.getD newId
      type := d.type
      number := resolvedNumber
      name := d.name
      createdAt := d.createdAt.getD now
      updatedAt := d.updatedAt.getD now
      resumo := d.resumo
      relatedLocations := d.relatedLocations
      relatedCharacters := d.relatedCharacters
      relatedEvents := d.relatedEvents
      adjacentLocations := d.adjacentLocations
      presentCharacters := d.presentCharacters
      presentLocations := d.presentLocations
      bonds := d.bonds }
  ({ cards := s1.cards ++ [card] }, card)

/-- The argument of `DataStore.updateCard` (a partial card object):
`none` models a field that is absent from the partial, which the shallow
merge leaves unchanged.  The in-repository callers never put `id`,
`createdAt`, or `updatedAt` in an update partial, so they are not modelled
here. -/
structure Patch where
  type : Option String
  number : Option Int
  name : Option String
  resumo : Option String
  relatedLocations : Option (List Nat)
  relatedCharacters : Option (List Nat)
  relatedEvents : Option (List Nat)
  adjacentLocations : Option (List Nat)
  presentCharacters : Option (List Nat)
  presentLocations : Option (List Nat)
  bonds : Option (List Nat)
deriving DecidableEq, Repr

/-- The empty update partial. -/
def Patch.empty : Patch :=
  { type := none, number := none, name := none, resumo := none
    relatedLocations := none, relatedCharacters := none, relatedEvents := none
    adjacentLocations := none, presentCharacters := none
    presentLocations := none, bonds := none }

/-- Replace the first card carrying the given id (the JS code writes
`this.cards[index] = ...` at the index returned by `findIndex`). -/
def replaceFirst (cards : List Card) (id : Nat) (f : Card → Card) : List Card :=
  match cards with
  | [] => []
  | c :: rest => if c.id = id then f c :: rest else c :: replaceFirst rest id f

/-- The shallow merge `{ ...existing, ...cardData, updatedAt: now }` performed
by `updateCard`, where `resolvedNumber` is the value `cardData.number` holds
after the numbering branch of `updateCard` ran. -/
def mergePatch (existing : Card) (p : Patch) (resolvedNumber : Option Int)
    (now : Nat) : Card :=
  { id := existing.id
    type := p.type.getD existing.type
    number := resolvedNumber
    name := p.name.getD existing.name
    createdAt := existing.createdAt
    updatedAt := now
    resumo := p.resumo.getD existing.resumo
    relatedLocations := p.relatedLocations.getD existing.relatedLocations
    relatedCharacters := p.relatedCharacters.getD existing.relatedCharacters
    relatedEvents := p.relatedEvents.getD existing.relatedEvents
    adjacentLocations := p.adjacentLocations.getD existing.adjacentLocations
    presentCharacters := p.presentCharacters.getD existing.presentCharacters
    presentLocations := p.presentLocations.getD existing.presentLocations
    bonds := p.bonds.getD existing.bonds }

/-- JS equality `cardData.type === c.type` where `cardData.type` may be
absent: comparing `undefined` with a string is false. -/
def typeMatches : Option String → String → Bool
  | none, _ => false
  | some t, u => t = u

/-- `DataStore.updateCard(id, cardData)` of src/app.js.  Returns the updated
store and the updated card, or `none` when the id is unknown (`return null`).
Mirrors the source: a truthy `cardData.number` that differs from the current
one is checked for a conflict against cards matching `cardData.type` (the
partial's type, not the stored card's type), and a conflict triggers
`reorganizeNumbers`; a falsy `cardData.number` is replaced by the existing
number; the merge refreshes `updatedAt`. -/
def updateCard (s : DataStore) (id : Nat) (p : Patch) (now : Nat) :
    DataStore × Option Card :=
  match s.cards.find? (fun c => c.id = id) with
  | none => (s, none)
  | some existing =>
    let changeRequested := truthyNum p.number ∧ p.number ≠ existing.number
    let conflict := changeRequested ∧
      s.cards.any (fun c =>
        typeMatches p.type c.type ∧ c.number = p.number ∧ c.id ≠ id)
    let s1 :=
      if conflict then
        match p.type with
        | some t => reorganizeNumbers s t (numOr0 p.number) (some id) now
        | none => s
        -- a conflict needs `c.type === cardData.type` to hold for some card,
        -- which is impossible when the partial has no type, so the `none`
        -- branch is unreachable
      else s
    let resolvedNumber := if truthyNum p.number then p.number else existing.number
    let merged := mergePatch existing p resolvedNumber now
    ({ cards := replaceFirst s1.cards id (fun _ => merged) }, some merged)

/-- The reference cleanup `deleteCard` applies to every card: the deleted id
is stripped from the `adjacentLocations`, `presentCharacters` and `bonds`
lists (and only from those three). -/
def stripDeleted (id : Nat) (c : Card) : Card :=
  { c with
    adjacentLocations := c.adjacentLocations.filter (fun loc => loc ≠ id)
    presentCharacters := c.presentCharacters.filter (fun ch => ch ≠ id)
    bonds := c.bonds.filter (fun bond => bond ≠ id) }

/-- `DataStore.deleteCard(id)` of src/app.js: when the id exists, strip it
from the `adjacentLocations`, `presentCharacters` and `bonds` lists of every
card, then remove the card at the found index; otherwise report failure. -/
def deleteCard (s : DataStore) (id : Nat) : DataStore × Bool :=
  match s.cards.findIdx? (fun c => c.id = id) with
  | none => (s, false)
  | some index =>
    ({ cards := (s.cards.map (stripDeleted id)).eraseIdx index }, true)

/-- `DataStore.getCard(id)` of src/app.js. -/
def getCard (s : DataStore) (id : Nat) : Option Card :=
  s.cards.find? (fun c => c.id = id)

-- Sanity checks on scenario 1 of the specification: two auto-numbered
-- locations, then an explicit collision on number 1.
example :
    ((createCard { cards := [] }
        { id := none, type := "local", number := none, name := "L1"
          createdAt := none, updatedAt := none, resumo := ""
          relatedLocations := [], relatedCharacters := [], relatedEvents := []
          adjacentLocations := [], presentCharacters := []
          presentLocations := [], bonds := [] } 1 0).2).number = some 1 := by
  decide

example :
    (((createCard (createCard { cards := [] }
        { id := none, type := "local", number := none, name := "L1"
          createdAt := none, updatedAt := none, resumo := ""
          relatedLocations := [], relatedCharacters := [], relatedEvents := []
          adjacentLocations := [], presentCharacters := []
          presentLocations := [], bonds := [] } 1 0).1
        { id := none, type := "local", number := none, name := "L2"
          createdAt := none, updatedAt := none, resumo := ""
          relatedLocations := [], relatedCharacters := [], relatedEvents := []
          adjacentLocations := [], presentCharacters := []
          presentLocations := [], bonds := [] } 2 0).2).number) = some 2 := by
  decide

/-- The empty store a session starts from. -/
def emptyStore : DataStore := { cards := [] }

/-- A blank `createCard` argument, convenient for building concrete inputs. -/
def emptyData : CardData :=
  { id := none, type := "", number := none, name := ""
    createdAt := none, updatedAt := none, resumo := ""
    relatedLocations := [], relatedCharacters := [], relatedEvents := []
    adjacentLocations := [], presentCharacters := []
    presentLocations := [], bonds := [] }

/-- The `number` values of the cards of one type, in store order. -/
def numbersOfType (s : DataStore) (type : String) : List (Option Int) :=
  (s.cards.filter (fun c => c.type = type)).map (fun c => c.number)

/-- C9 counterexample data: a type outside the three known ones and an empty
name. -/
def c9data : CardData := { emptyData with type := "banana", name := "" }

/-- C9: the claim says `create` fails with `ValidationError`, mutates no state
and inserts no card when the type is unknown or the name empty.  The code has
no validation at all: the card is inserted and the store mutated. -/
theorem c9_counterexample :
    ((createCard emptyStore c9data 1 0).1.cards.length = 1) ∧
    ((createCard emptyStore c9data 1 0).2.type = "banana") ∧
    ((createCard emptyStore c9data 1 0).2.name = "") ∧
    ((createCard emptyStore c9data 1 0).2 ∈ (createCard emptyStore c9data 1 0).1.cards) := by
  decide

/-- C9 (amended): `createCard` performs no input validation: for every input,
whatever its `type` and `name`, it appends exactly one card to the store and
returns it; rejection of unknown types and empty names happens only in the
excluded form layer. -/
theorem c9_create_never_validates (s : DataStore) (d : CardData) (newId now : Nat) :
    (createCard s d newId now).1.cards.length = s.cards.length + 1 ∧
    (createCard s d newId now).2 ∈ (createCard s d newId now).1.cards ∧
    (createCard s d newId now).2.type = d.type ∧
    (createCard s d newId now).2.name = d.name := by
  unfold createCard
  refine ⟨?_, ?_, rfl, rfl⟩
  · simp only [List.length_append, List.length_cons, List.length_nil]
    split
    · rfl
    · split
      · simp [reorganizeNumbers]
      · rfl
  · simp

/-- C10 counterexample data: input that carries its own `id`, `createdAt` and
`updatedAt`. -/
def c10data : CardData :=
  { emptyData with
    type := "local"
    name := "L"
    id := some 99
    createdAt := some 5
    updatedAt := some 6 }

/-- C10: the claim says input `id`/`createdAt`/`updatedAt` never become the
stored card's values.  Because `createCard` spreads `...cardData` after the
stamped fields, the input wins: with `generateId() = 1` and clock `100`, the
stored card keeps the input's id 99 and timestamps 5 and 6. -/
theorem c10_counterexample :
    ((createCard emptyStore c10data 1 100).2.id = 99) ∧
    ((createCard emptyStore c10data 1 100).2.createdAt = 5) ∧
    ((createCard emptyStore c10data 1 100).2.updatedAt = 6) ∧
    ((createCard emptyStore c10data 1 100).2 ∈ (createCard emptyStore c10data 1 100).1.cards) := by
  decide

/-- C10 (amended): the id and timestamps stamped by `createCard` are only
defaults: a field of the same name present in the input overrides them (the
object spread places `...cardData` after the stamps), and the fresh values are
used exactly when the input lacks those fields. -/
theorem c10_create_stamps_are_defaults (s : DataStore) (d : CardData)
    (newId now : Nat) :
    (createCard s d newId now).2.id = d.id.getD newId ∧
    (createCard s d newId now).2.createdAt = d.createdAt.getD now ∧
    (createCard s d newId now).2.updatedAt = d.updatedAt.getD now ∧
    (createCard s d newId now).1.cards.getLast? = some (createCard s d newId now).2 := by
  refine ⟨rfl, rfl, rfl, ?_⟩
  unfold createCard
  simp

/-- A blank card, convenient for building concrete stores. -/
def baseCard : Card :=
  { id := 0, type := "", number := none, name := "", createdAt := 0
    updatedAt := 0, resumo := ""
    relatedLocations := [], relatedCharacters := [], relatedEvents := []
    adjacentLocations := [], presentCharacters := []
    presentLocations := [], bonds := [] }

theorem foldl_max_init_le (l : List Card) (b : Int) :
    b ≤ l.foldl (fun acc x => max acc (numOr0 x.number)) b := by
  induction l generalizing b with
  | nil => exact le_refl b
  | cons c rest ih => exact le_trans (le_max_left _ _) (ih _)

theorem foldl_max_mem_le (l : List Card) (b : Int) (x : Card) (hx : x ∈ l) :
    numOr0 x.number ≤ l.foldl (fun acc x => max acc (numOr0 x.number)) b := by
  induction l generalizing b with
  | nil => cases hx
  | cons c rest ih =>
    rcases List.mem_cons.mp hx with h | h
    · subst h
      exact le_trans (le_max_right _ _) (foldl_max_init_le rest _)
    · exact ih _ h

theorem foldl_max_attained (l : List Card) (b : Int) :
    l.foldl (fun acc x => max acc (numOr0 x.number)) b = b ∨
    ∃ x ∈ l, l.foldl (fun acc x => max acc (numOr0 x.number)) b = numOr0 x.number := by
  induction l generalizing b with
  | nil => exact Or.inl rfl
  | cons c rest ih =>
    rcases ih (max b (numOr0 c.number)) with h | ⟨x, hx, hfx⟩
    · rcases max_cases b (numOr0 c.number) with ⟨hm, _⟩ | ⟨hm, _⟩
      · exact Or.inl (by rw [List.foldl_cons, h, hm])
      · exact Or.inr ⟨c, List.mem_cons_self _ _, by rw [List.foldl_cons, h, hm]⟩
    · exact Or.inr ⟨x, List.mem_cons_of_mem _ hx, by rw [List.foldl_cons, hfx]⟩

/-- C4 (amended, part of): `getNextNumber` returns 1 when no card of the type
exists, and otherwise one more than the maximum of the `number` values of the
cards of that type (`undefined` numbers counting as 0).  In particular the
result is strictly greater than every number currently held by a card of the
type — but nothing prevents a number freed by deleting the maximal card from
being handed out again, see the counterexample. -/
theorem c4_next_number_max_plus_one (s : DataStore) (t : String) :
    (s.cards.filter (fun c => c.type = t) = [] → getNextNumber s t = 1) ∧
    (∀ c ∈ s.cards, c.type = t → numOr0 c.number < getNextNumber s t) ∧
    (s.cards.filter (fun c => c.type = t) ≠ [] →
      ∃ c ∈ s.cards, c.type = t ∧ getNextNumber s t = numOr0 c.number + 1) := by
  refine ⟨?_, ?_, ?_⟩
  · intro h
    simp only [getNextNumber, h]
  · intro c hc hct
    have hmem : c ∈ s.cards.filter (fun c => c.type = t) :=
      List.mem_filter.mpr ⟨hc, by simp [hct]⟩
    rcases hfil : s.cards.filter (fun c => c.type = t) with _ | ⟨c0, rest⟩
    · rw [hfil] at hmem; cases hmem
    · simp only [getNextNumber, hfil]
      rw [hfil] at hmem
      rcases List.mem_cons.mp hmem with h | h
      · subst h
        exact lt_of_le_of_lt (foldl_max_init_le rest _) (lt_add_one _)
      · exact lt_of_le_of_lt (foldl_max_mem_le rest _ c h) (lt_add_one _)
  · intro h
    rcases hfil : s.cards.filter (fun c => c.type = t) with _ | ⟨c0, rest⟩
    · exact absurd hfil h
    · simp only [getNextNumber, hfil]
      have hsub : ∀ x ∈ c0 :: rest, x ∈ s.cards ∧ x.type = t := by
        intro x hx
        rw [← hfil] at hx
        have := List.mem_filter.mp hx
        exact ⟨this.1, by simpa using this.2⟩
      rcases foldl_max_attained rest (numOr0 c0.number) with hat | ⟨x, hx, hat⟩
      · exact ⟨c0, (hsub c0 (List.mem_cons_self _ _)).1,
          (hsub c0 (List.mem_cons_self _ _)).2, by rw [hat]⟩
      · exact ⟨x, (hsub x (List.mem_cons_of_mem _ hx)).1,
          (hsub x (List.mem_cons_of_mem _ hx)).2, by rw [hat]⟩

/-- A concrete store used by the C4 witness: two locations numbered 1 and 2. -/
def c4store : DataStore :=
  { cards := [{ baseCard with id := 1, type := "local", number := some 1 },
              { baseCard with id := 2, type := "local", number := some 2 }] }

/-- Witness for `c4_next_number_max_plus_one` at a concrete store: the next
location number is strictly above the number of the stored card number 2. -/
theorem c4_next_number_max_plus_one_witness :
    numOr0 (some (2 : Int)) < getNextNumber c4store "local" :=
  (c4_next_number_max_plus_one c4store "local").2.1
    { baseCard with id := 2, type := "local", number := some 2 }
    (by decide) (by decide)

/-- Input for the C4 counterexample: an auto-numbered location. -/
def c4dataA : CardData := { emptyData with type := "local", name := "A" }

/-- Second input for the C4 counterexample. -/
def c4dataB : CardData := { emptyData with type := "local", name := "B" }

/-- First step of the C4 counterexample: create a location in the empty store;
it receives number 1 and id 1. -/
def c4step1 : DataStore × Card := createCard emptyStore c4dataA 1 0

/-- Second step: delete that card, freeing number 1. -/
def c4step2 : DataStore × Bool := deleteCard c4step1.1 1

/-- Third step: create another location; `getNextNumber` hands out 1 again. -/
def c4step3 : DataStore × Card := createCard c4step2.1 c4dataB 2 1

/-- C4: the claim says a number freed by deletion is never assigned again to a
card of the same type.  Creating a location (it gets number 1), deleting it,
and creating another location assigns the freed number 1 again. -/
theorem c4_counterexample :
    c4step1.2.number = some 1 ∧ c4step2.2 = true ∧ c4step3.2.number = some 1 := by
  decide

/-- The displacement `reorganizeNumbers` applies to a plain number. -/
def shiftGe (n k : Int) : Int := if k ≥ n then k + 1 else k

theorem shiftGe_inj (n : Int) : Function.Injective (shiftGe n) := by
  intro a b h
  unfold shiftGe at h
  split at h <;> split at h <;> omega

theorem optShift_inj (n : Int) : Function.Injective (Option.map (shiftGe n)) :=
  Option.map_injective (shiftGe_inj n)

theorem optShift_ne_self (n : Int) (o : Option Int) :
    Option.map (shiftGe n) o ≠ some n := by
  cases o with
  | none => simp
  | some k =>
    simp only [Option.map_some', ne_eq, Option.some.injEq, shiftGe]
    split <;> omega

theorem shiftCard_type (t : String) (n : Int) (ex : Option Nat) (now : Nat)
    (c : Card) : (shiftCard t n ex now c).type = c.type := by
  unfold shiftCard; split <;> rfl

theorem shiftCard_id (t : String) (n : Int) (ex : Option Nat) (now : Nat)
    (c : Card) : (shiftCard t n ex now c).id = c.id := by
  unfold shiftCard; split <;> rfl

theorem filter_type_map (g : Card → Card) (hg : ∀ c, (g c).type = c.type)
    (t : String) (l : List Card) :
    (l.map g).filter (fun c => c.type = t) =
      (l.filter (fun c => c.type = t)).map g := by
  induction l with
  | nil => rfl
  | cons c rest ih =>
    by_cases h : c.type = t
    · simp only [List.map_cons, List.filter_cons]
      rw [if_pos (by simp [hg, h]), if_pos (by simp [h])]
      simp [ih]
    · simp only [List.map_cons, List.filter_cons]
      rw [if_neg (by simp [hg, h]), if_neg (by simp [h])]
      exact ih

theorem shiftCard_number_of_type (t : String) (n : Int) (now : Nat) (c : Card)
    (hc : c.type = t) :
    (shiftCard t n none now c).number = Option.map (shiftGe n) c.number := by
  unfold shiftCard
  cases hnum : c.number with
  | none =>
    rw [if_neg (by simp [hnum, geNum])]
    rw [hnum]
    rfl
  | some k =>
    by_cases hk : k ≥ n
    · rw [if_pos ⟨hc, by simp, by simp [hnum, geNum, hk]⟩]
      simp [hnum, numOr0, shiftGe, hk]
    · rw [if_neg (by simp [hnum, geNum, hk])]
      simp [hnum, shiftGe, hk]

theorem numbersOfType_reorg (s : DataStore) (t : String) (n : Int) (now : Nat) :
    numbersOfType (reorganizeNumbers s t n none now) t =
      (numbersOfType s t).map (Option.map (shiftGe n)) := by
  unfold numbersOfType reorganizeNumbers
  simp only
  rw [filter_type_map _ (shiftCard_type t n none now) t, List.map_map, List.map_map]
  apply List.map_congr_left
  intro c hc
  have hct : c.type = t := by
    have := List.mem_filter.mp hc
    simpa using this.2
  simp only [Function.comp_apply]
  exact shiftCard_number_of_type t n now c hct

theorem createCard_collision_cards (s : DataStore) (d : CardData)
    (newId now : Nat) (n : Int) (hn : d.number = some n) (h1 : 1 ≤ n)
    (hcol : s.cards.any (fun c => c.type = d.type ∧ c.number = d.number) = true) :
    (createCard s d newId now).1.cards
      = (reorganizeNumbers s d.type n none now).cards
          ++ [(createCard s d newId now).2] ∧
    (createCard s d newId now).2.number = some n := by
  have hinv : ¬(¬ truthyNum d.number = true ∨ geNum d.number 1 = false) := by
    rw [hn]
    simp only [truthyNum, geNum, not_or]
    constructor
    · simp; omega
    · simp; omega
  constructor
  · simp only [createCard]
    rw [if_neg hinv, if_pos hcol, hn]
    rfl
  · simp only [createCard]
    rw [if_neg hinv]
    exact hn

/-- C3: if `create` is called with an explicit number `n ≥ 1` colliding with
an existing card of the same type, then afterwards exactly one card of that
type holds `n` (the new card), every card of that type whose number was
`>= n` has been incremented by exactly one with its `updatedAt` refreshed,
and — provided the type's numbers were pairwise distinct before the call —
they still are afterwards. -/
theorem c3_create_collision_shifts (s : DataStore) (d : CardData)
    (newId now : Nat) (n : Int) (hn : d.number = some n) (h1 : 1 ≤ n)
    (hcol : s.cards.any (fun c => c.type = d.type ∧ c.number = d.number) = true)
    (hnd : (numbersOfType s d.type).Nodup) :
    ((createCard s d newId now).1.cards.filter
        (fun c => c.type = d.type ∧ c.number = some n)).length = 1 ∧
    (createCard s d newId now).2.number = some n ∧
    (∀ i (h : i < s.cards.length)
        (h2 : i < (createCard s d newId now).1.cards.length),
      s.cards[i].type = d.type → geNum s.cards[i].number n = true →
      ((createCard s d newId now).1.cards[i].number
          = some (numOr0 s.cards[i].number + 1) ∧
        (createCard s d newId now).1.cards[i].updatedAt = now)) ∧
    (numbersOfType (createCard s d newId now).1 d.type).Nodup := by
  obtain ⟨hcards, hnum⟩ :=
    createCard_collision_cards s d newId now n hn h1 hcol
  have hreorg_none :
      ∀ c ∈ (reorganizeNumbers s d.type n none now).cards,
        ¬(c.type = d.type ∧ c.number = some n) := by
    intro c' hc'
    unfold reorganizeNumbers at hc'
    obtain ⟨c, hc, rfl⟩ := List.mem_map.mp hc'
    by_cases ht : c.type = d.type
    · intro hcontra
      have := shiftCard_number_of_type d.type n now c ht
      rw [this] at hcontra
      exact optShift_ne_self n c.number hcontra.2
    · intro hcontra
      rw [shiftCard_type] at hcontra
      exact ht hcontra.1
  refine ⟨?_, hnum, ?_, ?_⟩
  · rw [hcards, List.filter_append]
    have hleft :
        ((reorganizeNumbers s d.type n none now).cards.filter
          (fun c => c.type = d.type ∧ c.number = some n)) = [] := by
      rw [List.filter_eq_nil_iff]
      intro c hc
      simpa using hreorg_none c hc
    rw [hleft]
    have hright : (decide ((createCard s d newId now).2.type = d.type) &&
        decide ((createCard s d newId now).2.number = some n)) = true := by
      simp only [hnum]
      simp [createCard]
    simp [hright]
  · intro i h h2
    intro htype hge
    have hlen : i < (reorganizeNumbers s d.type n none now).cards.length := by
      simpa [reorganizeNumbers] using h
    have hget : (createCard s d newId now).1.cards[i]
        = shiftCard d.type n none now s.cards[i] := by
      rw [List.getElem_of_eq hcards h2]
      rw [List.getElem_append_left hlen]
      simp [reorganizeNumbers]
    rw [hget]
    unfold shiftCard
    rw [if_pos ⟨htype, by simp, hge⟩]
    constructor
    · rfl
    · rfl
  · unfold numbersOfType
    rw [hcards, List.filter_append, List.map_append]
    have hleft : ((reorganizeNumbers s d.type n none now).cards.filter
        (fun c => c.type = d.type)).map (fun c => c.number)
        = (numbersOfType s d.type).map (Option.map (shiftGe n)) :=
      numbersOfType_reorg s d.type n now
    rw [hleft]
    have hright : ((([(createCard s d newId now).2]).filter
        (fun c => c.type = d.type)).map (fun c => c.number)) = [some n] := by
      have : decide ((createCard s d newId now).2.type = d.type) = true := by
        simp [createCard]
      simp [List.filter_cons, this, hnum]
    rw [hright]
    apply List.Nodup.append
    · exact hnd.map (optShift_inj n)
    · exact List.nodup_singleton _
    · intro x hx hx2
      obtain ⟨o, ho, rfl⟩ := List.mem_map.mp hx
      have : Option.map (shiftGe n) o = some n := by
        simpa using hx2
      exact optShift_ne_self n o this

/-- Store for the C3 witness: two locations numbered 1 and 2. -/
def c3store : DataStore :=
  { cards := [{ baseCard with id := 1, type := "local", number := some 1 },
              { baseCard with id := 2, type := "local", number := some 2 }] }

/-- Input for the C3 witness: a location demanding the occupied number 1. -/
def c3data : CardData :=
  { emptyData with type := "local", name := "L3", number := some 1 }

/-- Witness for `c3_create_collision_shifts` at a concrete collision. -/
theorem c3_create_collision_shifts_witness :
    ((createCard c3store c3data 3 7).1.cards.filter
        (fun c => c.type = c3data.type ∧ c.number = some 1)).length = 1 ∧
    (numbersOfType (createCard c3store c3data 3 7).1 c3data.type).Nodup := by
  have h := c3_create_collision_shifts c3store c3data 3 7 1 rfl (by decide)
    (by decide) (by decide)
  exact ⟨h.1, h.2.2.2⟩

/-- JS validity test for a card number used by `ensureAllCardsHaveNumbers`:
the negation of `!card.number || card.number < 1`. -/
def validNumber : Option Int → Bool
  | none => false
  | some k => k ≥ 1

/-- Stable insertion of an indexed card into a list sorted ascending by
`createdAt`: the new element goes after every element whose key is `≤` its
own, which is how a stable sort orders tying elements. -/
def insertByCreatedAt (x : Nat × Card) : List (Nat × Card) → List (Nat × Card)
  | [] => [x]
  | y :: ys =>
    if y.2.createdAt ≤ x.2.createdAt then y :: insertByCreatedAt x ys
    else x :: y :: ys

/-- Stable sort ascending by `createdAt`, modelling the
`sort((a, b) => dateA - dateB)` call of `ensureAllCardsHaveNumbers`
(`Array.prototype.sort` is stable, so any stable ascending sort is a faithful
model). -/
def sortByCreatedAt (l : List (Nat × Card)) : List (Nat × Card) :=
  l.foldl (fun acc x => insertByCreatedAt x acc) []

/-- One step of the numbering loop of `ensureAllCardsHaveNumbers`, carried
out on (store index, card) pairs: the accumulator holds `nextNumber` and the
assignments `(index, assigned number)` made so far.  A card with an invalid
number receives `nextNumber` (after which
`nextNumber = Math.max(nextNumber, card.number) + 1` is `nextNumber + 1`);
a card with a valid number keeps it and only advances `nextNumber`. -/
def ensureAssign (acc : Int × List (Nat × Int)) (p : Nat × Card) :
    Int × List (Nat × Int) :=
  if validNumber p.2.number then (max acc.1 (numOr0 p.2.number) + 1, acc.2)
  else (acc.1 + 1, acc.2 ++ [(p.1, acc.1)])

/-- The `(store index, number)` assignments one per-type pass of
`ensureAllCardsHaveNumbers` makes: the type's cards are sorted ascending by
`createdAt` and the numbering loop runs with `nextNumber` starting at 1. -/
def ensureAssignments (cards : List Card) (t : String) : List (Nat × Int) :=
  ((sortByCreatedAt ((cards.enum).filter (fun p => p.2.type = t))).foldl
    ensureAssign (1, [])).2

/-- One per-type pass of `ensureAllCardsHaveNumbers` of src/app.js.  The JS
loop mutates card objects in place; here the mutation is keyed by the card's
position in the store (positions are stable: the loop runs over a sorted copy
of a filtered list of references). -/
def ensurePass (cards : List Card) (t : String) : List Card :=
  cards.enum.map (fun p =>
    match (ensureAssignments cards t).lookup p.1 with
    | some v => { p.2 with number := some v }
    | none => p.2)

/-- `DataStore.ensureAllCardsHaveNumbers()` of src/app.js: one numbering pass
per type, in the order `['evento', 'local', 'personagem']`. -/
def ensureAllCardsHaveNumbers (s : DataStore) : DataStore :=
  { cards := ["evento", "local", "personagem"].foldl ensurePass s.cards }

/-- Store for the C5 counterexample: a legacy location without a number
created before a location that validly holds number 1. -/
def c5store : DataStore :=
  { cards := [{ baseCard with id := 1, type := "local", createdAt := 0 },
              { baseCard with id := 2, type := "local", number := some 1,
                              createdAt := 1 }] }

/-- C5: the claim says the legacy renumber pass skips numbers already validly
assigned within the type and leaves every card with a unique positive number.
On a store where a numberless location predates a location validly numbered 1,
the pass assigns 1 to the older card and leaves the younger card's 1 in
place: two locations end up with number 1. -/
theorem c5_counterexample :
    numbersOfType (ensureAllCardsHaveNumbers c5store) "local"
      = [some 1, some 1] ∧
    ¬ (numbersOfType (ensureAllCardsHaveNumbers c5store) "local").Nodup := by
  decide

theorem lookup_none_of_keys {β : Type} (a : Nat) (l : List (Nat × β))
    (h : ∀ p ∈ l, p.1 ≠ a) : l.lookup a = none := by
  induction l with
  | nil => rfl
  | cons p rest ih =>
    obtain ⟨k, v⟩ := p
    rw [List.lookup_cons]
    have hne : k ≠ a := h (k, v) (List.mem_cons_self _ _)
    have hk : (a == k) = false := by
      apply beq_eq_false_iff_ne.mpr
      exact fun hh => hne hh.symm
    rw [hk]
    exact ih (fun q hq => h q (List.mem_cons_of_mem _ hq))

theorem lookup_mem {β : Type} (a : Nat) (v : β) (l : List (Nat × β))
    (h : l.lookup a = some v) : (a, v) ∈ l := by
  induction l with
  | nil => cases h
  | cons p rest ih =>
    obtain ⟨k, w⟩ := p
    rw [List.lookup_cons] at h
    by_cases hk : (a == k) = true
    · rw [hk] at h
      simp only at h
      obtain rfl : w = v := by injection h
      obtain rfl : a = k := by simpa [beq_iff_eq] using hk
      exact List.mem_cons_self _ _
    · rw [Bool.not_eq_true] at hk
      rw [hk] at h
      exact List.mem_cons_of_mem _ (ih h)

theorem lookup_isSome_of_key {β : Type} (a : Nat) (v : β) (l : List (Nat × β))
    (h : (a, v) ∈ l) : ∃ w, l.lookup a = some w := by
  induction l with
  | nil => cases h
  | cons p rest ih =>
    obtain ⟨k, w⟩ := p
    rw [List.lookup_cons]
    by_cases hk : (a == k) = true
    · rw [hk]; exact ⟨w, rfl⟩
    · rw [Bool.not_eq_true] at hk
      rw [hk]
      rcases List.mem_cons.mp h with heq | hmem
      · exfalso
        have hak : a = k := (Prod.mk.inj heq).1
        simp [hak, beq_iff_eq] at hk
      · exact ih hmem

theorem foldl_ensureAssign_out_mono (l : List (Nat × Card))
    (acc : Int × List (Nat × Int)) :
    ∀ p ∈ acc.2, p ∈ (l.foldl ensureAssign acc).2 := by
  induction l generalizing acc with
  | nil => exact fun p hp => hp
  | cons q rest ih =>
    intro p hp
    refine ih (ensureAssign acc q) p ?_
    unfold ensureAssign
    split
    · exact hp
    · exact List.mem_append_left _ hp

theorem foldl_ensureAssign_keys (l : List (Nat × Card))
    (acc : Int × List (Nat × Int)) :
    ∀ p ∈ (l.foldl ensureAssign acc).2,
      p ∈ acc.2 ∨ ∃ c, (p.1, c) ∈ l ∧ validNumber c.number = false := by
  induction l generalizing acc with
  | nil => exact fun p hp => Or.inl hp
  | cons q rest ih =>
    intro p hp
    rcases ih (ensureAssign acc q) p hp with hacc | ⟨c, hc, hcinv⟩
    · unfold ensureAssign at hacc
      by_cases hval : validNumber q.2.number = true
      · rw [if_pos hval] at hacc
        exact Or.inl hacc
      · rw [if_neg hval] at hacc
        rcases List.mem_append.mp hacc with h | h
        · exact Or.inl h
        · right
          obtain rfl : p = (q.1, acc.1) := by simpa using h
          exact ⟨q.2, by simp [List.mem_cons], by simpa using hval⟩
    · exact Or.inr ⟨c, List.mem_cons_of_mem _ hc, hcinv⟩

theorem foldl_ensureAssign_values_ge (l : List (Nat × Card))
    (acc : Int × List (Nat × Int)) (hb : 1 ≤ acc.1)
    (hout : ∀ p ∈ acc.2, 1 ≤ p.2) :
    ∀ p ∈ (l.foldl ensureAssign acc).2, 1 ≤ p.2 := by
  induction l generalizing acc with
  | nil => exact hout
  | cons q rest ih =>
    refine ih (ensureAssign acc q) ?_ ?_
    · unfold ensureAssign
      split
      · simp only
        have : acc.1 ≤ max acc.1 (numOr0 q.2.number) := le_max_left _ _
        omega
      · simp only
        omega
    · unfold ensureAssign
      split
      · exact hout
      · intro p hp
        rcases List.mem_append.mp hp with h | h
        · exact hout p h
        · obtain rfl : p = (q.1, acc.1) := by simpa using h
          exact hb

theorem foldl_ensureAssign_key_exists (l : List (Nat × Card))
    (acc : Int × List (Nat × Int)) (i : Nat) (c : Card)
    (hm : (i, c) ∈ l) (hinv : validNumber c.number = false) :
    ∃ v, (i, v) ∈ (l.foldl ensureAssign acc).2 := by
  induction l generalizing acc with
  | nil => cases hm
  | cons q rest ih =>
    obtain ⟨qi, qc⟩ := q
    rcases List.mem_cons.mp hm with heq | hmem
    · injection heq with h1 h2
      subst h1
      subst h2
      refine ⟨acc.1,
        foldl_ensureAssign_out_mono rest (ensureAssign acc (i, c)) _ ?_⟩
      unfold ensureAssign
      rw [if_neg (by simp [hinv])]
      exact List.mem_append_right _ (List.mem_cons_self _ _)
    · exact ih _ hmem

theorem mem_insertByCreatedAt (x y : Nat × Card) (l : List (Nat × Card)) :
    y ∈ insertByCreatedAt x l ↔ y = x ∨ y ∈ l := by
  induction l with
  | nil => simp [insertByCreatedAt]
  | cons z rest ih =>
    unfold insertByCreatedAt
    split
    · simp only [List.mem_cons, ih]
      tauto
    · simp only [List.mem_cons]

theorem mem_sortByCreatedAt (l : List (Nat × Card)) (x : Nat × Card) :
    x ∈ sortByCreatedAt l ↔ x ∈ l := by
  have key : ∀ (l : List (Nat × Card)) (acc : List (Nat × Card)),
      x ∈ l.foldl (fun acc x => insertByCreatedAt x acc) acc ↔
        x ∈ acc ∨ x ∈ l := by
    intro l
    induction l with
    | nil => intro acc; simp
    | cons q rest ih =>
      intro acc
      rw [List.foldl_cons, ih, mem_insertByCreatedAt]
      simp only [List.mem_cons]
      tauto
  unfold sortByCreatedAt
  rw [key]
  simp

theorem ensurePass_length (cards : List Card) (t : String) :
    (ensurePass cards t).length = cards.length := by
  unfold ensurePass
  simp [List.enum_length]

theorem ensurePass_getElem (cards : List Card) (t : String) (i : Nat)
    (h : i < cards.length) (h2 : i < (ensurePass cards t).length) :
    (ensurePass cards t)[i] =
      (match (ensureAssignments cards t).lookup i with
       | some v => { cards[i] with number := some v }
       | none => cards[i]) := by
  unfold ensurePass
  simp only [List.getElem_map, List.getElem_enum]

theorem ensurePass_untouched (cards : List Card) (t : String) (i : Nat)
    (h : i < cards.length) (h2 : i < (ensurePass cards t).length)
    (hcase : cards[i].type ≠ t ∨ validNumber cards[i].number = true) :
    (ensurePass cards t)[i] = cards[i] := by
  rw [ensurePass_getElem cards t i h h2]
  have hnone : (ensureAssignments cards t).lookup i = none := by
    apply lookup_none_of_keys
    intro p hp hpi
    rcases foldl_ensureAssign_keys _ _ p hp with hnil | ⟨c, hc, hcinv⟩
    · cases hnil
    · rw [mem_sortByCreatedAt] at hc
      have hmf := List.mem_filter.mp hc
      have htype : c.type = t := by simpa using hmf.2
      have henum := hmf.1
      rw [List.mem_enum_iff_getElem?] at henum
      rw [hpi] at henum
      rw [List.getElem?_eq_getElem h] at henum
      have hceq : cards[i] = c := by injection henum
      rcases hcase with hct | hval
      · exact hct (by rw [hceq]; exact htype)
      · rw [← hceq, hval] at hcinv
        cases hcinv
  rw [hnone]

theorem ensurePass_type (cards : List Card) (t : String) (i : Nat)
    (h : i < cards.length) (h2 : i < (ensurePass cards t).length) :
    (ensurePass cards t)[i].type = cards[i].type := by
  rw [ensurePass_getElem cards t i h h2]
  rcases hl : (ensureAssignments cards t).lookup i with _ | v
  · rfl
  · rfl

theorem ensurePass_makes_valid (cards : List Card) (t : String) (i : Nat)
    (h : i < cards.length) (h2 : i < (ensurePass cards t).length)
    (ht : cards[i].type = t) :
    validNumber ((ensurePass cards t)[i]).number = true := by
  by_cases hval : validNumber cards[i].number = true
  · rw [ensurePass_untouched cards t i h h2 (Or.inr hval)]
    exact hval
  · have hinv : validNumber cards[i].number = false := by simpa using hval
    have henum : (i, cards[i]) ∈ cards.enum := by
      rw [List.mem_enum_iff_getElem?]
      exact List.getElem?_eq_getElem h
    have hfil : (i, cards[i]) ∈ (cards.enum).filter (fun p => p.2.type = t) :=
      List.mem_filter.mpr ⟨henum, by simpa using ht⟩
    have hsor : (i, cards[i]) ∈
        sortByCreatedAt ((cards.enum).filter (fun p => p.2.type = t)) :=
      (mem_sortByCreatedAt _ _).mpr hfil
    obtain ⟨v, hv⟩ :=
      foldl_ensureAssign_key_exists _ (1, []) i cards[i] hsor hinv
    obtain ⟨w, hw⟩ := lookup_isSome_of_key i v _ hv
    have hge : 1 ≤ w :=
      foldl_ensureAssign_values_ge _ (1, []) (by norm_num)
        (by intro p hp; cases hp) (i, w) (lookup_mem i w _ hw)
    rw [ensurePass_getElem cards t i h h2]
    have hw2 : (ensureAssignments cards t).lookup i = some w := hw
    rw [hw2]
    simpa [validNumber] using hge

/-- C5 (amended): the legacy renumber pass assigns numbers only to cards whose
number is absent or `< 1`, per type in ascending `createdAt` order starting at
1; a card that already had a valid number is left entirely unchanged, and
afterwards every card of the three known types carries a positive number.
Uniqueness is NOT guaranteed (see the counterexample): the pass skips only the
numbers of cards earlier in its processing order, so a valid number held by a
later-created card can duplicate a number just assigned. -/
theorem c5_legacy_renumber_assigns (s : DataStore) (i : Nat)
    (h : i < s.cards.length)
    (h2 : i < (ensureAllCardsHaveNumbers s).cards.length) :
    (validNumber s.cards[i].number = true →
      (ensureAllCardsHaveNumbers s).cards[i] = s.cards[i]) ∧
    ((s.cards[i].type = "evento" ∨ s.cards[i].type = "local" ∨
        s.cards[i].type = "personagem") →
      validNumber ((ensureAllCardsHaveNumbers s).cards[i]).number = true) := by
  have e3 : (ensureAllCardsHaveNumbers s).cards
      = ensurePass (ensurePass (ensurePass s.cards "evento") "local")
          "personagem" := rfl
  have h1i : i < (ensurePass s.cards "evento").length := by
    rw [ensurePass_length]; exact h
  have h2i : i < (ensurePass (ensurePass s.cards "evento") "local").length := by
    rw [ensurePass_length]; exact h1i
  have h3i : i < (ensurePass (ensurePass (ensurePass s.cards "evento") "local")
      "personagem").length := by
    rw [ensurePass_length]; exact h2i
  have hget : (ensureAllCardsHaveNumbers s).cards[i]
      = (ensurePass (ensurePass (ensurePass s.cards "evento") "local")
          "personagem")[i] := List.getElem_of_eq e3 h2
  constructor
  · intro hval
    have u1 : (ensurePass s.cards "evento")[i] = s.cards[i] :=
      ensurePass_untouched _ _ i h h1i (Or.inr hval)
    have u2 : (ensurePass (ensurePass s.cards "evento") "local")[i]
        = (ensurePass s.cards "evento")[i] :=
      ensurePass_untouched _ _ i h1i h2i (Or.inr (by rw [u1]; exact hval))
    have u3 : (ensurePass (ensurePass (ensurePass s.cards "evento") "local")
        "personagem")[i]
        = (ensurePass (ensurePass s.cards "evento") "local")[i] :=
      ensurePass_untouched _ _ i h2i h3i (Or.inr (by rw [u2, u1]; exact hval))
    rw [hget, u3, u2, u1]
  · intro htype
    rw [hget]
    rcases htype with ht | ht | ht
    · have v1 : validNumber ((ensurePass s.cards "evento")[i]).number = true :=
        ensurePass_makes_valid _ _ i h h1i ht
      have u2 : (ensurePass (ensurePass s.cards "evento") "local")[i]
          = (ensurePass s.cards "evento")[i] :=
        ensurePass_untouched _ _ i h1i h2i (Or.inr v1)
      have u3 : (ensurePass (ensurePass (ensurePass s.cards "evento") "local")
          "personagem")[i]
          = (ensurePass (ensurePass s.cards "evento") "local")[i] :=
        ensurePass_untouched _ _ i h2i h3i (Or.inr (by rw [u2]; exact v1))
      rw [u3, u2]
      exact v1
    · have u1 : (ensurePass s.cards "evento")[i] = s.cards[i] :=
        ensurePass_untouched _ _ i h h1i (Or.inl (by rw [ht]; decide))
      have v2 : validNumber
          ((ensurePass (ensurePass s.cards "evento") "local")[i]).number
            = true :=
        ensurePass_makes_valid _ _ i h1i h2i (by rw [u1]; exact ht)
      have u3 : (ensurePass (ensurePass (ensurePass s.cards "evento") "local")
          "personagem")[i]
          = (ensurePass (ensurePass s.cards "evento") "local")[i] :=
        ensurePass_untouched _ _ i h2i h3i (Or.inr v2)
      rw [u3]
      exact v2
    · have u1 : (ensurePass s.cards "evento")[i] = s.cards[i] :=
        ensurePass_untouched _ _ i h h1i (Or.inl (by rw [ht]; decide))
      have u2 : (ensurePass (ensurePass s.cards "evento") "local")[i]
          = (ensurePass s.cards "evento")[i] :=
        ensurePass_untouched _ _ i h1i h2i (Or.inl (by rw [u1, ht]; decide))
      exact ensurePass_makes_valid _ _ i h2i h3i (by rw [u2, u1]; exact ht)

/-- Witness for `c5_legacy_renumber_assigns`: in the C5 store the numberless
location at position 0 ends up with a valid number. -/
theorem c5_legacy_renumber_assigns_witness :
    validNumber (((ensureAllCardsHaveNumbers c5store).cards.get
      ⟨0, by decide⟩).number) = true :=
  (c5_legacy_renumber_assigns c5store 0 (by decide) (by decide)).2
    (Or.inr (Or.inl (by decide)))

/-- One repository operation, as exposed by the `DataStore` class: the fresh
id and the clock readings are part of the operation description. -/
inductive Op where
  | create (d : CardData) (newId : Nat) (now : Nat)
  | update (id : Nat) (p : Patch) (now : Nat)
  | del (id : Nat)

/-- Run one operation against the store. -/
def runOp (s : DataStore) : Op → DataStore
  | .create d newId now => (createCard s d newId now).1
  | .update id p now => (updateCard s id p now).1
  | .del id => (deleteCard s id).1

/-- Run an operation sequence starting from the empty store. -/
def runOps (ops : List Op) : DataStore := ops.foldl runOp emptyStore

/-- Side conditions under which one operation keeps the store well formed:
a create's effective id must be fresh (which models `generateId` never
colliding), and an update that targets an existing card must not change the
card's type and, when it supplies a truthy number, must name the card's type
in the partial (the in-app form submissions do both; the conflict check of
`updateCard` compares against `cardData.type`, so a number change without the
type sidesteps it — see the C2 counterexample). -/
def okOp (s : DataStore) : Op → Bool
  | .create d newId _ => !(s.cards.any (fun c => c.id = d.id.getD newId))
  | .update id p _ =>
    match s.cards.find? (fun c => c.id = id) with
    | none => true
    | some existing =>
      (decide (p.type = none) || decide (p.type = some existing.type)) &&
      (!truthyNum p.number || decide (p.type = some existing.type))
  | .del _ => true

/-- All the side conditions hold along the trace of an operation sequence. -/
def OkTrace (s : DataStore) : List Op → Prop
  | [] => True
  | op :: rest => okOp s op = true ∧ OkTrace (runOp s op) rest

instance OkTrace.dec : (s : DataStore) → (l : List Op) → Decidable (OkTrace s l)
  | _, [] => .isTrue trivial
  | s, op :: rest =>
    haveI := OkTrace.dec (runOp s op) rest
    inferInstanceAs (Decidable (okOp s op = true ∧ OkTrace (runOp s op) rest))

/-- The ids of the stored cards are pairwise distinct. -/
def IdsNodup (s : DataStore) : Prop := (s.cards.map (fun c => c.id)).Nodup

/-- Operations for the C2 counterexample: two locations are created (numbers
1 and 2), then the second one is updated to number 1 with a partial that—
like any partial not carrying a `type` field—sidesteps the conflict check of
`updateCard`. -/
def c2ops : List Op :=
  [.create { emptyData with type := "local", name := "A" } 1 0,
   .create { emptyData with type := "local", name := "B" } 2 1,
   .update 2 { Patch.empty with number := some 1 } 2]

/-- C2: the claim says any create/update/delete sequence keeps the numbers of
each type pairwise distinct.  An update that supplies a number but no type is
checked for conflicts against `cardData.type === c.type`, which never holds,
so it renumbers freely: `c2ops` ends with two locations both numbered 1. -/
theorem c2_counterexample :
    numbersOfType (runOps c2ops) "local" = [some 1, some 1] ∧
    ¬ (numbersOfType (runOps c2ops) "local").Nodup := by
  decide

/-- List-level version of `numbersOfType`. -/
def numbersOf (l : List Card) (t : String) : List (Option Int) :=
  (l.filter (fun c => c.type = t)).map (fun c => c.number)

theorem numbersOfType_eq (s : DataStore) (t : String) :
    numbersOfType s t = numbersOf s.cards t := rfl

theorem numbersOf_append (a b : List Card) (t : String) :
    numbersOf (a ++ b) t = numbersOf a t ++ numbersOf b t := by
  simp [numbersOf]

theorem numbersOf_single_of_type (c : Card) (t : String) (h : c.type = t) :
    numbersOf [c] t = [c.number] := by
  simp [numbersOf, h]

theorem numbersOf_single_of_ne (c : Card) (t : String) (h : ¬ c.type = t) :
    numbersOf [c] t = [] := by
  simp [numbersOf, h]

theorem mem_numbersOf (l : List Card) (t : String) (m : Option Int) :
    m ∈ numbersOf l t ↔ ∃ c ∈ l, c.type = t ∧ c.number = m := by
  unfold numbersOf
  simp only [List.mem_map, List.mem_filter, decide_eq_true_eq]
  constructor
  · rintro ⟨c, ⟨hc, hct⟩, rfl⟩
    exact ⟨c, hc, hct, rfl⟩
  · rintro ⟨c, hc, hct, rfl⟩
    exact ⟨c, ⟨hc, hct⟩, rfl⟩

theorem nodup_append_single {α : Type} (xs : List α) (x : α)
    (h1 : xs.Nodup) (h2 : x ∉ xs) : (xs ++ [x]).Nodup := by
  refine List.Nodup.append h1 (List.nodup_singleton x) ?_
  intro a ha hax
  obtain rfl : a = x := by simpa using hax
  exact h2 ha

theorem shiftCard_eq_of_type_ne (t : String) (n : Int) (ex : Option Nat)
    (now : Nat) (c : Card) (h : ¬ c.type = t) :
    shiftCard t n ex now c = c := by
  unfold shiftCard
  rw [if_neg (fun hcon => h hcon.1)]

theorem shiftCard_eq_of_excluded (t : String) (n : Int) (now : Nat) (c : Card) :
    shiftCard t n (some c.id) now c = c := by
  unfold shiftCard
  rw [if_neg (fun hcon => hcon.2.1 rfl)]

theorem shiftCard_number_of_type_ex (t : String) (n : Int) (ex : Option Nat)
    (now : Nat) (c : Card) (hc : c.type = t) (hex : ex ≠ some c.id) :
    (shiftCard t n ex now c).number = Option.map (shiftGe n) c.number := by
  unfold shiftCard
  cases hnum : c.number with
  | none =>
    rw [if_neg (by simp [hnum, geNum])]
    rw [hnum]
    rfl
  | some k =>
    by_cases hk : k ≥ n
    · rw [if_pos ⟨hc, hex, by simp [hnum, geNum, hk]⟩]
      simp [hnum, numOr0, shiftGe, hk]
    · rw [if_neg (by simp [hnum, geNum, hk])]
      simp [hnum, shiftGe, hk]

theorem ids_reorg (s : DataStore) (t : String) (n : Int) (ex : Option Nat)
    (now : Nat) :
    (reorganizeNumbers s t n ex now).cards.map (fun c => c.id)
      = s.cards.map (fun c => c.id) := by
  unfold reorganizeNumbers
  rw [List.map_map]
  apply List.map_congr_left
  intro c _
  exact shiftCard_id t n ex now c

theorem numbersOf_reorg_other (s : DataStore) (t : String) (n : Int)
    (ex : Option Nat) (now : Nat) (t2 : String) (h : ¬ t2 = t) :
    numbersOf (reorganizeNumbers s t n ex now).cards t2
      = numbersOf s.cards t2 := by
  unfold numbersOf reorganizeNumbers
  simp only
  rw [filter_type_map _ (shiftCard_type t n ex now) t2, List.map_map]
  apply List.map_congr_left
  intro c hc
  have hct : c.type = t2 := by
    have := List.mem_filter.mp hc
    simpa using this.2
  have : shiftCard t n ex now c = c :=
    shiftCard_eq_of_type_ne t n ex now c (by rw [hct]; exact h)
  simp [Function.comp_apply, this]

theorem getNextNumber_gt (s : DataStore) (t : String) :
    ∀ c ∈ s.cards, c.type = t → numOr0 c.number < getNextNumber s t := by
  intro c hc hct
  have hmem : c ∈ s.cards.filter (fun c => c.type = t) :=
    List.mem_filter.mpr ⟨hc, by simp [hct]⟩
  rcases hfil : s.cards.filter (fun c => c.type = t) with _ | ⟨c0, rest⟩
  · rw [hfil] at hmem; cases hmem
  · simp only [getNextNumber, hfil]
    rw [hfil] at hmem
    rcases List.mem_cons.mp hmem with h | h
    · subst h
      exact lt_of_le_of_lt (foldl_max_init_le rest _) (lt_add_one _)
    · exact lt_of_le_of_lt (foldl_max_mem_le rest _ c h) (lt_add_one _)

theorem createCard_cards_eq (s : DataStore) (d : CardData) (newId now : Nat) :
    (createCard s d newId now).1.cards =
      (if (¬ truthyNum d.number = true ∨ geNum d.number 1 = false) then s
       else if s.cards.any (fun c => c.type = d.type ∧ c.number = d.number) then
         reorganizeNumbers s d.type (numOr0 d.number) none now
       else s).cards ++ [(createCard s d newId now).2] := rfl

theorem createCard_number_eq (s : DataStore) (d : CardData) (newId now : Nat) :
    (createCard s d newId now).2.number =
      (if (¬ truthyNum d.number = true ∨ geNum d.number 1 = false)
       then some (getNextNumber s d.type) else d.number) := rfl

theorem createCard_type_eq (s : DataStore) (d : CardData) (newId now : Nat) :
    (createCard s d newId now).2.type = d.type := rfl

theorem createCard_id_eq (s : DataStore) (d : CardData) (newId now : Nat) :
    (createCard s d newId now).2.id = d.id.getD newId := rfl

theorem create_inv (s : DataStore) (d : CardData) (newId now : Nat)
    (hids : IdsNodup s) (hnum : ∀ u, (numbersOf s.cards u).Nodup)
    (hfresh : s.cards.any (fun c => c.id = d.id.getD newId) = false) :
    IdsNodup (createCard s d newId now).1 ∧
      ∀ u, (numbersOf (createCard s d newId now).1.cards u).Nodup := by
  have hfresh2 : ∀ c ∈ s.cards, ¬ c.id = d.id.getD newId := by
    intro c hc
    have h := List.any_eq_false.mp hfresh c hc
    simpa using h
  constructor
  · unfold IdsNodup
    rw [createCard_cards_eq, List.map_append]
    have hids2 :
        ((if (¬ truthyNum d.number = true ∨ geNum d.number 1 = false) then s
          else if s.cards.any
              (fun c => c.type = d.type ∧ c.number = d.number) then
            reorganizeNumbers s d.type (numOr0 d.number) none now
          else s).cards.map (fun c => c.id)) = s.cards.map (fun c => c.id) := by
      split
      · rfl
      · split
        · exact ids_reorg s d.type (numOr0 d.number) none now
        · rfl
    rw [hids2]
    simp only [List.map_cons, List.map_nil]
    apply nodup_append_single _ _ hids
    intro hmem
    obtain ⟨c, hc, hcid⟩ := List.mem_map.mp hmem
    rw [createCard_id_eq] at hcid
    exact hfresh2 c hc hcid
  · intro u
    rw [createCard_cards_eq, numbersOf_append]
    by_cases hinvalid : (¬ truthyNum d.number = true ∨ geNum d.number 1 = false)
    · rw [if_pos hinvalid]
      by_cases ht : (createCard s d newId now).2.type = u
      · rw [numbersOf_single_of_type _ _ ht]
        rw [createCard_type_eq] at ht
        apply nodup_append_single _ _ (hnum u)
        intro hmem
        obtain ⟨c, hc, hct, hcnum⟩ := (mem_numbersOf _ _ _).mp hmem
        rw [createCard_number_eq, if_pos hinvalid] at hcnum
        have hlt := getNextNumber_gt s u c hc hct
        rw [hcnum] at hlt
        rw [ht] at hlt
        simp [numOr0] at hlt
      · rw [numbersOf_single_of_ne _ _ ht, List.append_nil]
        exact hnum u
    · rw [if_neg hinvalid]
      have hdn : ∃ n, d.number = some n ∧ 1 ≤ n := by
        rcases hcase : d.number with _ | n
        · exfalso
          exact hinvalid (Or.inl (by rw [hcase]; simp [truthyNum]))
        · refine ⟨n, rfl, ?_⟩
          by_contra hlt
          exact hinvalid (Or.inr (by rw [hcase]; simp [geNum]; omega))
      obtain ⟨n, hdn, hn1⟩ := hdn
      by_cases hcol :
          s.cards.any (fun c => c.type = d.type ∧ c.number = d.number) = true
      · rw [if_pos hcol]
        by_cases ht : (createCard s d newId now).2.type = u
        · rw [numbersOf_single_of_type _ _ ht]
          rw [createCard_type_eq] at ht
          subst ht
          have hre : numbersOf (reorganizeNumbers s d.type (numOr0 d.number)
              none now).cards d.type
              = (numbersOf s.cards d.type).map
                  (Option.map (shiftGe (numOr0 d.number))) :=
            numbersOfType_reorg s d.type (numOr0 d.number) now
          rw [hre]
          apply nodup_append_single
          · exact (hnum d.type).map (optShift_inj _)
          · intro hmem
            obtain ⟨o, ho, hoeq⟩ := List.mem_map.mp hmem
            rw [createCard_number_eq, if_neg hinvalid] at hoeq
            rw [hdn] at hoeq
            simp only [numOr0] at hoeq
            exact optShift_ne_self n o hoeq
        · rw [numbersOf_single_of_ne _ _ ht, List.append_nil]
          rw [createCard_type_eq] at ht
          exact (numbersOf_reorg_other s d.type (numOr0 d.number) none now u
            (fun hu => ht (hu.symm))).symm ▸ hnum u
      · rw [if_neg hcol]
        have hcol2 : ∀ c ∈ s.cards, c.type = d.type → ¬ c.number = d.number := by
          simpa using hcol
        by_cases ht : (createCard s d newId now).2.type = u
        · rw [numbersOf_single_of_type _ _ ht]
          rw [createCard_type_eq] at ht
          apply nodup_append_single _ _ (hnum u)
          intro hmem
          obtain ⟨c, hc, hct, hcnum⟩ := (mem_numbersOf _ _ _).mp hmem
          rw [createCard_number_eq, if_neg hinvalid] at hcnum
          exact hcol2 c hc (hct.trans ht.symm) hcnum
        · rw [numbersOf_single_of_ne _ _ ht, List.append_nil]
          exact hnum u

theorem replaceFirst_of_decomp (l1 : List Card) (c : Card) (l2 : List Card)
    (id : Nat) (f : Card → Card) (h1 : ∀ x ∈ l1, ¬ x.id = id)
    (hc : c.id = id) :
    replaceFirst (l1 ++ c :: l2) id f = l1 ++ f c :: l2 := by
  induction l1 with
  | nil =>
    simp only [List.nil_append, replaceFirst]
    rw [if_pos hc]
  | cons a rest ih =>
    have ha : ¬ a.id = id := h1 a (List.mem_cons_self _ _)
    simp only [List.cons_append, replaceFirst]
    rw [if_neg ha]
    exact congrArg (fun z => a :: z)
      (ih (fun x hx => h1 x (List.mem_cons_of_mem _ hx)))

theorem exists_decomp_of_find? (l : List Card) (p : Card → Bool) (c : Card)
    (h : l.find? p = some c) :
    ∃ l1 l2, l = l1 ++ c :: l2 ∧ (∀ x ∈ l1, ¬ p x = true) ∧ p c = true := by
  induction l with
  | nil => cases h
  | cons a rest ih =>
    cases hpa : p a with
    | true =>
      have ha : some a = some c := by
        rw [List.find?_cons_of_pos _ hpa] at h
        exact h
      obtain rfl : a = c := by injection ha
      exact ⟨[], rest, rfl, fun x hx => absurd hx (List.not_mem_nil x), hpa⟩
    | false =>
      rw [List.find?_cons_of_neg _ (by simp [hpa])] at h
      obtain ⟨l1, l2, hsplit, hl1, hc⟩ := ih h
      refine ⟨a :: l1, l2, by rw [hsplit]; rfl, ?_, hc⟩
      intro x hx
      rcases List.mem_cons.mp hx with rfl | hx2
      · simp [hpa]
      · exact hl1 x hx2

theorem nodup_middle_parts {α : Type} (a : List α) (x : α) (b : List α)
    (h : (a ++ x :: b).Nodup) :
    a.Nodup ∧ b.Nodup ∧ (∀ y ∈ a, y ∉ b) ∧ x ∉ a ∧ x ∉ b := by
  rw [List.nodup_append] at h
  obtain ⟨ha, hxb, hdisj⟩ := h
  rw [List.nodup_cons] at hxb
  refine ⟨ha, hxb.2, ?_, ?_, hxb.1⟩
  · intro y hy hyb
    exact hdisj hy (List.mem_cons_of_mem _ hyb)
  · intro hxa
    exact hdisj hxa (List.mem_cons_self _ _)

theorem nodup_append_middle {α : Type} (a : List α) (x : α) (b : List α)
    (ha : a.Nodup) (hb : b.Nodup) (hdisj : ∀ y ∈ a, y ∉ b)
    (hxa : x ∉ a) (hxb : x ∉ b) : (a ++ x :: b).Nodup := by
  rw [List.nodup_append]
  refine ⟨ha, ?_, ?_⟩
  · rw [List.nodup_cons]
    exact ⟨hxb, hb⟩
  · intro y hy hyxb
    rcases List.mem_cons.mp hyxb with rfl | hyb
    · exact hxa hy
    · exact hdisj y hy hyb

theorem numbersOf_map_shift (l : List Card) (t : String) (n : Int) (id : Nat)
    (now : Nat) (hl : ∀ x ∈ l, ¬ x.id = id) :
    numbersOf (l.map (shiftCard t n (some id) now)) t
      = (numbersOf l t).map (Option.map (shiftGe n)) := by
  unfold numbersOf
  rw [filter_type_map _ (shiftCard_type t n (some id) now) t, List.map_map,
    List.map_map]
  apply List.map_congr_left
  intro c hc
  have hmf := List.mem_filter.mp hc
  have hct : c.type = t := by simpa using hmf.2
  have hcid : ¬ c.id = id := hl c hmf.1
  simp only [Function.comp_apply]
  exact shiftCard_number_of_type_ex t n (some id) now c hct
    (fun hx => hcid (by injection hx with hv; exact hv.symm))

theorem numbersOf_map_shift_other (l : List Card) (t : String) (n : Int)
    (ex : Option Nat) (now : Nat) (u : String) (h : ¬ u = t) :
    numbersOf (l.map (shiftCard t n ex now)) u = numbersOf l u := by
  unfold numbersOf
  rw [filter_type_map _ (shiftCard_type t n ex now) u, List.map_map]
  apply List.map_congr_left
  intro c hc
  have hct : c.type = u := by
    have := List.mem_filter.mp hc
    simpa using this.2
  have : shiftCard t n ex now c = c :=
    shiftCard_eq_of_type_ne t n ex now c (by rw [hct]; exact h)
  simp [Function.comp_apply, this]

theorem updateCard_eq_none (s : DataStore) (id : Nat) (p : Patch) (now : Nat)
    (hfind : s.cards.find? (fun c => c.id = id) = none) :
    updateCard s id p now = (s, none) := by
  unfold updateCard
  rw [hfind]

theorem updateCard_eq_some (s : DataStore) (id : Nat) (p : Patch) (now : Nat)
    (existing : Card)
    (hfind : s.cards.find? (fun c => c.id = id) = some existing) :
    updateCard s id p now =
      ({ cards := replaceFirst
          (if (truthyNum p.number = true ∧ p.number ≠ existing.number) ∧
              s.cards.any (fun c =>
                typeMatches p.type c.type ∧ c.number = p.number ∧
                  c.id ≠ id) = true then
            (match p.type with
             | some t => reorganizeNumbers s t (numOr0 p.number) (some id) now
             | none => s)
          else s).cards id
          (fun _ => mergePatch existing p
            (if truthyNum p.number = true then p.number else existing.number)
            now) },
        some (mergePatch existing p
          (if truthyNum p.number = true then p.number else existing.number)
          now)) := by
  unfold updateCard
  rw [hfind]

theorem updateCard_eq_sometype (s : DataStore) (id : Nat) (p : Patch)
    (now : Nat) (existing : Card) (t : String)
    (hfind : s.cards.find? (fun c => c.id = id) = some existing)
    (hpt : p.type = some t) :
    updateCard s id p now =
      ({ cards := replaceFirst
          (if (truthyNum p.number = true ∧ p.number ≠ existing.number) ∧
              s.cards.any (fun c =>
                typeMatches p.type c.type ∧ c.number = p.number ∧
                  c.id ≠ id) = true then
            reorganizeNumbers s t (numOr0 p.number) (some id) now
          else s).cards id
          (fun _ => mergePatch existing p
            (if truthyNum p.number = true then p.number else existing.number)
            now) },
        some (mergePatch existing p
          (if truthyNum p.number = true then p.number else existing.number)
          now)) := by
  rw [updateCard_eq_some s id p now existing hfind]
  rw [hpt]

theorem mergePatch_number (existing : Card) (p : Patch) (res : Option Int)
    (now : Nat) : (mergePatch existing p res now).number = res := rfl

theorem mergePatch_id (existing : Card) (p : Patch) (res : Option Int)
    (now : Nat) : (mergePatch existing p res now).id = existing.id := rfl


theorem update_inv (s : DataStore) (id : Nat) (p : Patch) (now : Nat)
    (hids : IdsNodup s) (hnum : ∀ u, (numbersOf s.cards u).Nodup)
    (hok : okOp s (.update id p now) = true) :
    IdsNodup (updateCard s id p now).1 ∧
      ∀ u, (numbersOf (updateCard s id p now).1.cards u).Nodup := by
  cases hfind : s.cards.find? (fun c => c.id = id) with
  | none =>
    rw [updateCard_eq_none s id p now hfind]
    exact ⟨hids, hnum⟩
  | some existing =>
    have hok2 : (p.type = none ∨ p.type = some existing.type) ∧
        (truthyNum p.number = true → p.type = some existing.type) := by
      simp only [okOp] at hok
      rw [hfind] at hok
      simp only [Bool.and_eq_true, Bool.or_eq_true, decide_eq_true_eq,
        Bool.not_eq_true'] at hok
      refine ⟨hok.1, fun htr => ?_⟩
      rcases hok.2 with hf | hsome
      · rw [htr] at hf; cases hf
      · exact hsome
    obtain ⟨l1, l2, hsplit, hl1p, hcp⟩ := exists_decomp_of_find? _ _ _ hfind
    have hexid : existing.id = id := by simpa using hcp
    have hl1 : ∀ x ∈ l1, ¬ x.id = id := by
      intro x hx
      have := hl1p x hx
      simpa using this
    have hidsplit : (s.cards.map (fun c => c.id))
        = l1.map (fun c => c.id) ++ id :: l2.map (fun c => c.id) := by
      rw [hsplit]
      simp [hexid]
    have hidparts :=
      nodup_middle_parts (l1.map (fun c => c.id)) id (l2.map (fun c => c.id))
        (by rw [← hidsplit]; exact hids)
    have hl2 : ∀ x ∈ l2, ¬ x.id = id := by
      intro x hx hxid
      exact hidparts.2.2.2.2 (List.mem_map.mpr ⟨x, hx, hxid⟩)
    have hmtype : ∀ res,
        (mergePatch existing p res now).type = existing.type := by
      intro res
      unfold mergePatch
      rcases hok2.1 with hnone | hsome
      · simp [hnone]
      · simp [hsome]
    have horig : ∀ u, numbersOf s.cards u =
        numbersOf l1 u ++ (numbersOf [existing] u ++ numbersOf l2 u) := by
      intro u
      rw [hsplit, ← List.singleton_append, numbersOf_append, numbersOf_append]
    have hcards0 := updateCard_eq_some s id p now existing hfind
    by_cases hcond : (truthyNum p.number = true ∧ p.number ≠ existing.number) ∧
        s.cards.any (fun c =>
          typeMatches p.type c.type ∧ c.number = p.number ∧ c.id ≠ id) = true
    · have htr : truthyNum p.number = true := hcond.1.1
      have hptype : p.type = some existing.type := hok2.2 htr
      have hpn : p.number = some (numOr0 p.number) := by
        rcases hcase : p.number with _ | m
        · rw [hcase] at htr; cases htr
        · rfl
      have hresQ : (if truthyNum p.number = true then p.number
          else existing.number) = p.number := if_pos htr
      have hcards : (updateCard s id p now).1.cards =
          (l1.map (shiftCard existing.type (numOr0 p.number) (some id) now)) ++
            (mergePatch existing p p.number now) ::
            (l2.map (shiftCard existing.type (numOr0 p.number) (some id)
              now)) := by
        rw [updateCard_eq_sometype s id p now existing existing.type hfind
          hptype]
        simp only [if_pos hcond, hresQ]
        rw [show (reorganizeNumbers s existing.type (numOr0 p.number)
            (some id) now).cards
            = (l1.map (shiftCard existing.type (numOr0 p.number)
                (some id) now))
              ++ existing ::
              (l2.map (shiftCard existing.type (numOr0 p.number)
                (some id) now))
          from by
            unfold reorganizeNumbers
            rw [hsplit, List.map_append, List.map_cons]
            rw [← hexid, shiftCard_eq_of_excluded]]
        apply replaceFirst_of_decomp
        · intro x hx
          obtain ⟨y, hy, rfl⟩ := List.mem_map.mp hx
          rw [shiftCard_id]
          exact hl1 y hy
        · exact hexid
      constructor
      · unfold IdsNodup
        rw [hcards, List.map_append, List.map_cons]
        have e1 : (l1.map (shiftCard existing.type (numOr0 p.number)
            (some id) now)).map (fun c => c.id) = l1.map (fun c => c.id) := by
          rw [List.map_map]
          exact List.map_congr_left (fun c _ => shiftCard_id _ _ _ _ c)
        have e2 : (l2.map (shiftCard existing.type (numOr0 p.number)
            (some id) now)).map (fun c => c.id) = l2.map (fun c => c.id) := by
          rw [List.map_map]
          exact List.map_congr_left (fun c _ => shiftCard_id _ _ _ _ c)
        rw [e1, e2, mergePatch_id, hexid]
        rw [← hidsplit]
        exact hids
      · intro u
        rw [hcards, numbersOf_append, ← List.singleton_append,
          numbersOf_append]
        by_cases hu : u = existing.type
        · subst hu
          rw [numbersOf_map_shift _ _ _ _ _ hl1,
            numbersOf_map_shift _ _ _ _ _ hl2]
          rw [numbersOf_single_of_type _ _ (hmtype p.number),
            mergePatch_number]
          have hparts := nodup_middle_parts (numbersOf l1 existing.type)
            existing.number (numbersOf l2 existing.type) (by
              have h0 := hnum existing.type
              rw [horig existing.type, numbersOf_single_of_type _ _ rfl,
                List.singleton_append] at h0
              exact h0)
          rw [List.singleton_append]
          refine nodup_append_middle _ _ _
            (hparts.1.map (optShift_inj _)) (hparts.2.1.map (optShift_inj _))
            ?_ ?_ ?_
          · intro y hy hyB
            obtain ⟨o, ho, rfl⟩ := List.mem_map.mp hy
            obtain ⟨o2, ho2, heq⟩ := List.mem_map.mp hyB
            have ho22 : o2 = o := optShift_inj _ heq
            rw [ho22] at ho2
            exact hparts.2.2.1 o ho ho2
          · intro hmem
            obtain ⟨o, ho, heq⟩ := List.mem_map.mp hmem
            exact optShift_ne_self _ o (heq.trans hpn)
          · intro hmem
            obtain ⟨o, ho, heq⟩ := List.mem_map.mp hmem
            exact optShift_ne_self _ o (heq.trans hpn)
        · rw [numbersOf_map_shift_other _ _ _ _ _ _ hu,
            numbersOf_map_shift_other _ _ _ _ _ _ hu]
          have hmne : ¬ (mergePatch existing p p.number now).type = u := by
            rw [hmtype]
            exact fun hh => hu hh.symm
          rw [numbersOf_single_of_ne _ _ hmne]
          rw [List.nil_append]
          have hexne : ¬ existing.type = u := fun hh => hu hh.symm
          have h0 := hnum u
          rw [horig u, numbersOf_single_of_ne _ _ hexne,
            List.nil_append] at h0
          exact h0
    · have hcards : (updateCard s id p now).1.cards =
          l1 ++ (mergePatch existing p
            (if truthyNum p.number = true then p.number else existing.number)
            now) :: l2 := by
        rw [hcards0]
        simp only [if_neg hcond]
        rw [hsplit]
        exact replaceFirst_of_decomp l1 existing l2 id _ hl1 hexid
      constructor
      · unfold IdsNodup
        rw [hcards, List.map_append, List.map_cons, mergePatch_id, hexid,
          ← hidsplit]
        exact hids
      · intro u
        rw [hcards, numbersOf_append, ← List.singleton_append,
          numbersOf_append]
        by_cases hchange : truthyNum p.number = true ∧
            p.number ≠ existing.number
        · have htr : truthyNum p.number = true := hchange.1
          have hresQ : (if truthyNum p.number = true then p.number
              else existing.number) = p.number := if_pos htr
          have hany : ¬ s.cards.any (fun c =>
              typeMatches p.type c.type ∧ c.number = p.number ∧
                c.id ≠ id) = true :=
            fun hb => hcond ⟨hchange, hb⟩
          have hnocol : ∀ c ∈ s.cards, typeMatches p.type c.type = true →
              c.number = p.number → c.id = id := by
            intro c hc hty hn
            by_contra hne
            apply hany
            rw [List.any_eq_true]
            exact ⟨c, hc, by simp [hty, hn, hne]⟩
          have hptype : p.type = some existing.type := hok2.2 htr
          by_cases hu : u = existing.type
          · subst hu
            rw [numbersOf_single_of_type _ _ (hmtype _), mergePatch_number,
              hresQ]
            have hparts := nodup_middle_parts (numbersOf l1 existing.type)
              existing.number (numbersOf l2 existing.type) (by
                have h0 := hnum existing.type
                rw [horig existing.type, numbersOf_single_of_type _ _ rfl,
                  List.singleton_append] at h0
                exact h0)
            rw [List.singleton_append]
            refine nodup_append_middle _ _ _ hparts.1 hparts.2.1
              hparts.2.2.1 ?_ ?_
            · intro hmem
              obtain ⟨c, hc, hct, hcn⟩ := (mem_numbersOf _ _ _).mp hmem
              have hcs : c ∈ s.cards := by
                rw [hsplit]
                exact List.mem_append_left _ hc
              have hty : typeMatches p.type c.type = true := by
                rw [hptype]
                simp [typeMatches, hct]
              exact hl1 c hc (hnocol c hcs hty hcn)
            · intro hmem
              obtain ⟨c, hc, hct, hcn⟩ := (mem_numbersOf _ _ _).mp hmem
              have hcs : c ∈ s.cards := by
                rw [hsplit]
                exact List.mem_append_right _ (List.mem_cons_of_mem _ hc)
              have hty : typeMatches p.type c.type = true := by
                rw [hptype]
                simp [typeMatches, hct]
              exact hl2 c hc (hnocol c hcs hty hcn)
          · have hmne : ¬ (mergePatch existing p
                (if truthyNum p.number = true then p.number
                  else existing.number) now).type = u := by
              rw [hmtype]
              exact fun hh => hu hh.symm
            rw [numbersOf_single_of_ne _ _ hmne]
            rw [List.nil_append]
            have hexne : ¬ existing.type = u := fun hh => hu hh.symm
            have h0 := hnum u
            rw [horig u, numbersOf_single_of_ne _ _ hexne,
              List.nil_append] at h0
            exact h0
        · have hmn : (if truthyNum p.number = true then p.number
              else existing.number) = existing.number := by
            by_cases htr : truthyNum p.number = true
            · rw [if_pos htr]
              by_contra hne
              exact hchange ⟨htr, hne⟩
            · rw [if_neg htr]
          by_cases hu : u = existing.type
          · rw [numbersOf_single_of_type _ _ ((hmtype _).trans hu.symm),
              mergePatch_number, hmn]
            have h0 := hnum u
            rw [horig u, numbersOf_single_of_type _ _ hu.symm] at h0
            exact h0
          · have hmne : ¬ (mergePatch existing p
                (if truthyNum p.number = true then p.number
                  else existing.number) now).type = u := by
              rw [hmtype]
              exact fun hh => hu hh.symm
            rw [numbersOf_single_of_ne _ _ hmne]
            rw [List.nil_append]
            have hexne : ¬ existing.type = u := fun hh => hu hh.symm
            have h0 := hnum u
            rw [horig u, numbersOf_single_of_ne _ _ hexne,
              List.nil_append] at h0
            exact h0

theorem deleteCard_eq_none (s : DataStore) (id : Nat)
    (hidx : s.cards.findIdx? (fun c => c.id = id) = none) :
    deleteCard s id = (s, false) := by
  unfold deleteCard
  rw [hidx]

theorem deleteCard_eq_some (s : DataStore) (id : Nat) (index : Nat)
    (hidx : s.cards.findIdx? (fun c => c.id = id) = some index) :
    deleteCard s id =
      ({ cards := (s.cards.map (stripDeleted id)).eraseIdx index }, true) := by
  unfold deleteCard
  rw [hidx]

theorem stripDeleted_id (id : Nat) (c : Card) :
    (stripDeleted id c).id = c.id := rfl

theorem stripDeleted_type (id : Nat) (c : Card) :
    (stripDeleted id c).type = c.type := rfl

theorem stripDeleted_number (id : Nat) (c : Card) :
    (stripDeleted id c).number = c.number := rfl

theorem numbersOf_sublist (l1 l2 : List Card) (h : l1.Sublist l2)
    (u : String) : (numbersOf l1 u).Sublist (numbersOf l2 u) :=
  (List.Sublist.filter _ h).map _

theorem numbersOf_map_strip (l : List Card) (id : Nat) (u : String) :
    numbersOf (l.map (stripDeleted id)) u = numbersOf l u := by
  unfold numbersOf
  rw [filter_type_map _ (stripDeleted_type id) u, List.map_map]
  exact List.map_congr_left (fun c _ => stripDeleted_number id c)

theorem delete_inv (s : DataStore) (id : Nat) (hids : IdsNodup s)
    (hnum : ∀ u, (numbersOf s.cards u).Nodup) :
    IdsNodup (deleteCard s id).1 ∧
      ∀ u, (numbersOf (deleteCard s id).1.cards u).Nodup := by
  cases hidx : s.cards.findIdx? (fun c => c.id = id) with
  | none =>
    rw [deleteCard_eq_none s id hidx]
    exact ⟨hids, hnum⟩
  | some index =>
    rw [deleteCard_eq_some s id index hidx]
    have hsub := List.eraseIdx_sublist (s.cards.map (stripDeleted id)) index
    constructor
    · unfold IdsNodup
      apply List.Nodup.sublist (hsub.map (fun c => c.id))
      rw [List.map_map]
      have : ((fun c => c.id) ∘ stripDeleted id) = (fun c => c.id) := by
        funext c
        exact stripDeleted_id id c
      rw [this]
      exact hids
    · intro u
      apply List.Nodup.sublist (numbersOf_sublist _ _ hsub u)
      rw [numbersOf_map_strip]
      exact hnum u

theorem okTrace_inv (ops : List Op) :
    ∀ s, IdsNodup s → (∀ u, (numbersOf s.cards u).Nodup) → OkTrace s ops →
      IdsNodup (ops.foldl runOp s) ∧
        ∀ u, (numbersOf (ops.foldl runOp s).cards u).Nodup := by
  induction ops with
  | nil => exact fun s h1 h2 _ => ⟨h1, h2⟩
  | cons op rest ih =>
    intro s h1 h2 hok
    obtain ⟨hop, hrest⟩ := hok
    rw [List.foldl_cons]
    cases op with
    | create d newId now =>
      have hfresh : s.cards.any (fun c => c.id = d.id.getD newId) = false := by
        simp only [okOp, Bool.not_eq_true'] at hop
        exact hop
      have hinv := create_inv s d newId now h1 h2 hfresh
      exact ih _ hinv.1 hinv.2 hrest
    | update id p now =>
      have hinv := update_inv s id p now h1 h2 hop
      exact ih _ hinv.1 hinv.2 hrest
    | del id =>
      have hinv := delete_inv s id h1 h2
      exact ih _ hinv.1 hinv.2 hrest

/-- C2 (amended): after any sequence of create/update/delete operations from
the empty store, the numbers of the cards of each type are pairwise distinct,
PROVIDED every create uses a fresh id (what `generateId` is meant to supply)
and every update that targets an existing card preserves the card's type and,
when it supplies a truthy `number`, names the card's type in the partial —
which is what the in-repository form submissions do.  Without the proviso the
invariant fails, see the counterexample. -/
theorem c2_numbering_unique (ops : List Op) (t : String)
    (hok : OkTrace emptyStore ops) :
    (numbersOfType (runOps ops) t).Nodup := by
  rw [numbersOfType_eq]
  refine (okTrace_inv ops emptyStore ?_ ?_ hok).2 t
  · simp [IdsNodup, emptyStore]
  · intro u
    simp [numbersOf, emptyStore]

/-- A well-formed operation sequence for the C2 witness: two locations, an
explicit renumbering of the second to the occupied number 1 (with the type
named in the partial), then a deletion. -/
def c2okops : List Op :=
  [.create { emptyData with type := "local", name := "A" } 1 0,
   .create { emptyData with type := "local", name := "B" } 2 1,
   .update 2 { Patch.empty with number := some 1, type := some "local" } 2,
   .del 1]

/-- Witness for `c2_numbering_unique` on a concrete well-formed sequence. -/
theorem c2_numbering_unique_witness :
    (numbersOfType (runOps c2okops) "local").Nodup :=
  c2_numbering_unique c2okops "local" (by decide)

/-- The target-centric reciprocal-field lookup of `addMutualConnection` in
src/app.js: chained conditionals on the target card's actual type crossed
with the source card's type; when no branch matches, the `targetField`
passed by the caller is kept. -/
def recipFieldFor (targetType sourceType : String) (targetField : RField) :
    RField :=
  if targetType = "local" then
    if sourceType = "evento" then .relatedEvents
    else if sourceType = "local" then .adjacentLocations
    else if sourceType = "personagem" then .presentCharacters
    else targetField
  else if targetType = "personagem" then
    if sourceType = "evento" then .relatedEvents
    else if sourceType = "local" then .presentLocations
    else if sourceType = "personagem" then .bonds
    else targetField
  else if targetType = "evento" then
    if sourceType = "local" then .relatedLocations
    else if sourceType = "personagem" then .relatedCharacters
    else targetField
  else targetField

/-- The `connectionFields` array of src/app.js, in source order. -/
def connectionFieldsList : List RField :=
  [.relatedLocations, .relatedCharacters, .relatedEvents,
   .adjacentLocations, .presentCharacters, .presentLocations, .bonds]

/-- The single-field update partial `{ [field]: value }` the synchronizer
hands to `updateCard`. -/
def patchForField (φ : RField) (l : List Nat) : Patch :=
  match φ with
  | .relatedLocations => { Patch.empty with relatedLocations := some l }
  | .relatedCharacters => { Patch.empty with relatedCharacters := some l }
  | .relatedEvents => { Patch.empty with relatedEvents := some l }
  | .adjacentLocations => { Patch.empty with adjacentLocations := some l }
  | .presentCharacters => { Patch.empty with presentCharacters := some l }
  | .presentLocations => { Patch.empty with presentLocations := some l }
  | .bonds => { Patch.empty with bonds := some l }

/-- A card with one relationship field replaced and `updatedAt` refreshed —
the net effect of `updateCard` applied to a single-field partial. -/
def setFU (c : Card) (φ : RField) (l : List Nat) (now : Nat) : Card :=
  { setF c φ l with updatedAt := now }

/-- `addMutualConnection(targetCardId, sourceCardId, targetField, sourceType)`
of src/app.js: load the target, pick the reciprocal field from the target's
actual type, and append the source id if absent, persisting through
`updateCard`.  (The JS also mutates the fetched card object in place, but the
store only changes through the `updateCard` call modelled here.) -/
def addMutualConnection (s : DataStore) (targetCardId sourceCardId : Nat)
    (targetField : RField) (sourceType : String) (now : Nat) : DataStore :=
  match s.cards.find? (fun c => c.id = targetCardId) with
  | none => s
  | some targetCard =>
    let fieldToUpdate := recipFieldFor targetCard.type sourceType targetField
    if sourceCardId ∈ getF targetCard fieldToUpdate then s
    else
      (updateCard s targetCardId
        (patchForField fieldToUpdate
          (getF targetCard fieldToUpdate ++ [sourceCardId])) now).1

/-- One iteration of the field loop of `removeMutualConnection`: if the
target card's field contains the source id, store the filtered list through
`updateCard`.  The target is re-fetched from the store each iteration; this
is equivalent to the JS code's single fetch because each iteration touches a
distinct field and `updateCard` merges over the current stored card. -/
def removeFieldStep (targetCardId sourceCardId : Nat) (now : Nat)
    (st : DataStore) (φ : RField) : DataStore :=
  match st.cards.find? (fun c => c.id = targetCardId) with
  | none => st
  | some tc =>
    if sourceCardId ∈ getF tc φ then
      (updateCard st targetCardId
        (patchForField φ ((getF tc φ).filter (fun i => ¬ i = sourceCardId)))
        now).1
    else st

/-- `removeMutualConnection(targetCardId, sourceCardId, targetField)` of
src/app.js: strip the source id from every one of the seven relationship
fields of the target card (the `targetField` argument is unused there). -/
def removeMutualConnection (s : DataStore) (targetCardId sourceCardId : Nat)
    (now : Nat) : DataStore :=
  match s.cards.find? (fun c => c.id = targetCardId) with
  | none => s
  | some _ =>
    connectionFieldsList.foldl (removeFieldStep targetCardId sourceCardId now) s

/-- `removeAllMutualConnections(card)` of src/app.js: for every relationship
field the card holds and every id in it, strip the card's id from every
relationship field of that target. -/
def removeAllMutualConnections (s : DataStore) (card : Card) (now : Nat) :
    DataStore :=
  connectionFieldsList.foldl (fun st φ =>
    (getF card φ).foldl (fun st2 targetId =>
      removeMutualConnection st2 targetId card.id now) st) s

/-- The five source fields of `connectionMappings` in
`updateMutualConnections` of src/app.js, with their `targetField` values,
keyed by the saved card's type. -/
def connectionMappings (cardType : String) : List (RField × RField) :=
  if cardType = "evento" then
    [(.relatedLocations, .relatedEvents), (.relatedCharacters, .relatedEvents)]
  else if cardType = "local" then
    [(.adjacentLocations, .adjacentLocations),
     (.presentCharacters, .presentLocations)]
  else if cardType = "personagem" then
    [(.bonds, .bonds)]
  else []

/-- The five relationship fields the form layer snapshots into
`previousConnections` before an update (src/app.js `handleFormSubmit`). -/
structure ConnFields where
  relatedLocations : List Nat
  relatedCharacters : List Nat
  adjacentLocations : List Nat
  presentCharacters : List Nat
  bonds : List Nat
deriving DecidableEq, Repr

/-- Read a `ConnFields` snapshot like `cardData[fieldName]`; the two
reciprocal-only fields never occur as mapping keys, and an absent field reads
as the empty list. -/
def getCF (f : ConnFields) : RField → List Nat
  | .relatedLocations => f.relatedLocations
  | .relatedCharacters => f.relatedCharacters
  | .adjacentLocations => f.adjacentLocations
  | .presentCharacters => f.presentCharacters
  | .bonds => f.bonds
  | _ => []

/-- `previousConnections[fieldName] || []`: the previous value of one
relationship field, empty when the card was just created (`prevOpt = none`,
the JS passes `null`). -/
def prevConns (prevOpt : Option ConnFields) (φ : RField) : List Nat :=
  match prevOpt with
  | some prev => getCF prev φ
  | none => []

/-- The body of the per-field loop of `updateMutualConnections`: diff the new
connections of one mapped source field against the previous ones, add the
saved card's id to the reciprocal field of newly referenced targets, and
strip it from every field of no-longer-referenced targets. -/
def syncField (cardId : Nat) (cardType : String) (cur : ConnFields)
    (prevOpt : Option ConnFields) (now : Nat) (st : DataStore)
    (fp : RField × RField) : DataStore :=
  let currentConnections := getCF cur fp.1
  let previousConns := prevConns prevOpt fp.1
  let added := currentConnections.filter (fun i => i ∉ previousConns)
  let removed := previousConns.filter (fun i => i ∉ currentConnections)
  let st1 := added.foldl (fun acc targetId =>
    addMutualConnection acc targetId cardId fp.2 cardType now) st
  removed.foldl (fun acc targetId =>
    removeMutualConnection acc targetId cardId now) st1

/-- `updateMutualConnections(card, cardData, previousConnections)` of
src/app.js: run the add/remove diff for every source field mapped for the
saved card's type. -/
def updateMutualConnections (s : DataStore) (cardId : Nat) (cardType : String)
    (cur : ConnFields) (prevOpt : Option ConnFields) (now : Nat) : DataStore :=
  (connectionMappings cardType).foldl
    (syncField cardId cardType cur prevOpt now) s

-- Sanity check, scenario 2 of the specification: after saving character 1
-- with `bonds = [2]`, character 2's bonds contain character 1's id.
example :
    (getCard (updateMutualConnections
      { cards := [{ baseCard with id := 1, type := "personagem" },
                  { baseCard with id := 2, type := "personagem" }] }
      1 "personagem"
      { relatedLocations := [], relatedCharacters := [],
        adjacentLocations := [], presentCharacters := [], bonds := [2] }
      none 5) 2).map (fun c => c.bonds) = some [1] := by
  decide

-- Scenario 3: clearing the bond again removes the reciprocal entry.
example :
    (getCard (updateMutualConnections
      { cards := [{ baseCard with id := 1, type := "personagem", bonds := [2] },
                  { baseCard with id := 2, type := "personagem", bonds := [1] }] }
      1 "personagem"
      { relatedLocations := [], relatedCharacters := [],
        adjacentLocations := [], presentCharacters := [], bonds := [] }
      (some { relatedLocations := [], relatedCharacters := [],
              adjacentLocations := [], presentCharacters := [], bonds := [2] })
      5) 2).map (fun c => c.bonds) = some [] := by
  decide

theorem getF_setFU_same (c : Card) (φ : RField) (l : List Nat) (now : Nat) :
    getF (setFU c φ l now) φ = l := by
  cases φ <;> rfl

theorem getF_setFU_other (c : Card) (φ ψ : RField) (l : List Nat) (now : Nat)
    (hne : ¬ ψ = φ) : getF (setFU c φ l now) ψ = getF c ψ := by
  cases φ <;> cases ψ <;> first | rfl | exact absurd rfl hne

theorem setFU_id (c : Card) (φ : RField) (l : List Nat) (now : Nat) :
    (setFU c φ l now).id = c.id := by
  cases φ <;> rfl

theorem setFU_type (c : Card) (φ : RField) (l : List Nat) (now : Nat) :
    (setFU c φ l now).type = c.type := by
  cases φ <;> rfl

theorem updateCard_patchField (s : DataStore) (id : Nat) (φ : RField)
    (l : List Nat) (now : Nat) (tc : Card)
    (hfind : s.cards.find? (fun c => c.id = id) = some tc) :
    (updateCard s id (patchForField φ l) now).1.cards
      = replaceFirst s.cards id (fun _ => setFU tc φ l now) := by
  rw [updateCard_eq_some s id _ now tc hfind]
  cases φ <;> rfl

theorem mem_connectionFieldsList (φ : RField) : φ ∈ connectionFieldsList := by
  cases φ <;> simp [connectionFieldsList]


theorem replaceFirst_ids (l : List Card) (id : Nat) (f : Card → Card)
    (hf : ∀ c, c.id = id → (f c).id = id) :
    (replaceFirst l id f).map (fun c => c.id) = l.map (fun c => c.id) := by
  induction l with
  | nil => rfl
  | cons a rest ih =>
    unfold replaceFirst
    by_cases ha : a.id = id
    · rw [if_pos ha]
      simp only [List.map_cons]
      rw [hf a ha, ha]
    · rw [if_neg ha]
      simp only [List.map_cons]
      rw [ih]

theorem find?_replaceFirst_self (l : List Card) (id : Nat) (f : Card → Card)
    (c : Card) (h : l.find? (fun x => x.id = id) = some c)
    (hf : ∀ x, x.id = id → (f x).id = id) :
    (replaceFirst l id f).find? (fun x => x.id = id) = some (f c) := by
  induction l with
  | nil => cases h
  | cons a rest ih =>
    by_cases ha : a.id = id
    · have : some a = some c := by
        rw [List.find?_cons_of_pos _ (by simp [ha])] at h
        exact h
      obtain rfl : a = c := by injection this
      unfold replaceFirst
      rw [if_pos ha]
      exact List.find?_cons_of_pos _ (by simp [hf a ha])
    · rw [List.find?_cons_of_neg _ (by simp [ha])] at h
      unfold replaceFirst
      rw [if_neg ha]
      rw [List.find?_cons_of_neg _ (by simp [ha])]
      exact ih h

theorem find?_replaceFirst_other (l : List Card) (id y : Nat)
    (f : Card → Card) (hf : ∀ x, x.id = id → (f x).id = id)
    (hne : ¬ y = id) :
    (replaceFirst l id f).find? (fun x => x.id = y)
      = l.find? (fun x => x.id = y) := by
  induction l with
  | nil => rfl
  | cons a rest ih =>
    unfold replaceFirst
    by_cases ha : a.id = id
    · rw [if_pos ha]
      have h1 : ¬ (f a).id = y := by
        rw [hf a ha]
        exact fun hh => hne hh.symm
      have h2 : ¬ a.id = y := by
        rw [ha]
        exact fun hh => hne hh.symm
      rw [List.find?_cons_of_neg _ (by simp [h1]),
        List.find?_cons_of_neg _ (by simp [h2])]
    · rw [if_neg ha]
      by_cases hay : a.id = y
      · rw [List.find?_cons_of_pos _ (by simp [hay]),
          List.find?_cons_of_pos _ (by simp [hay])]
      · rw [List.find?_cons_of_neg _ (by simp [hay]),
          List.find?_cons_of_neg _ (by simp [hay])]
        exact ih

theorem find?_of_mem_nodup (l : List Card)
    (hnd : (l.map (fun c => c.id)).Nodup) (c : Card) (hc : c ∈ l) :
    l.find? (fun x => x.id = c.id) = some c := by
  induction l with
  | nil => cases hc
  | cons a rest ih =>
    rw [List.map_cons, List.nodup_cons] at hnd
    rcases List.mem_cons.mp hc with rfl | hmem
    · exact List.find?_cons_of_pos _ (by simp)
    · have hane : ¬ a.id = c.id := by
        intro hh
        exact hnd.1 (by rw [hh]; exact List.mem_map.mpr ⟨c, hmem, rfl⟩)
      rw [List.find?_cons_of_neg _ (by simp [hane])]
      exact ih hnd.2 hmem

theorem removeFieldStep_find_other (targetId srcId : Nat) (now : Nat)
    (st : DataStore) (φ : RField) (y : Nat) (hne : ¬ y = targetId) :
    (removeFieldStep targetId srcId now st φ).cards.find?
        (fun c => c.id = y)
      = st.cards.find? (fun c => c.id = y) := by
  unfold removeFieldStep
  cases hf : st.cards.find? (fun c => c.id = targetId) with
  | none => rfl
  | some tc =>
    have htcid : tc.id = targetId := by
      have := List.find?_some hf
      simpa using this
    simp only
    by_cases hmem : srcId ∈ getF tc φ
    · rw [if_pos hmem]
      rw [updateCard_patchField st targetId φ _ now tc hf]
      exact find?_replaceFirst_other _ _ _ _
        (fun x _ => by rw [setFU_id]; exact htcid) hne
    · rw [if_neg hmem]

theorem removeFieldStep_ids (targetId srcId : Nat) (now : Nat)
    (st : DataStore) (φ : RField) :
    (removeFieldStep targetId srcId now st φ).cards.map (fun c => c.id)
      = st.cards.map (fun c => c.id) := by
  unfold removeFieldStep
  cases hf : st.cards.find? (fun c => c.id = targetId) with
  | none => rfl
  | some tc =>
    have htcid : tc.id = targetId := by
      have := List.find?_some hf
      simpa using this
    simp only
    by_cases hmem : srcId ∈ getF tc φ
    · rw [if_pos hmem]
      rw [updateCard_patchField st targetId φ _ now tc hf]
      exact replaceFirst_ids _ _ _ (fun x _ => by rw [setFU_id]; exact htcid)
    · rw [if_neg hmem]

theorem removeFieldStep_target (targetId srcId : Nat) (now : Nat)
    (st : DataStore) (φ : RField) (tc : Card)
    (hf : st.cards.find? (fun c => c.id = targetId) = some tc) :
    ∃ tc1, (removeFieldStep targetId srcId now st φ).cards.find?
        (fun c => c.id = targetId) = some tc1 ∧
      tc1.id = tc.id ∧ tc1.type = tc.type ∧
      (∀ ψ, ∀ x ∈ getF tc1 ψ, x ∈ getF tc ψ) ∧
      srcId ∉ getF tc1 φ := by
  have htcid : tc.id = targetId := by
    have := List.find?_some hf
    simpa using this
  unfold removeFieldStep
  rw [hf]
  simp only
  by_cases hmem : srcId ∈ getF tc φ
  · rw [if_pos hmem]
    refine ⟨setFU tc φ ((getF tc φ).filter (fun i => ¬ i = srcId)) now, ?_,
      setFU_id _ _ _ _, setFU_type _ _ _ _, ?_, ?_⟩
    · rw [updateCard_patchField st targetId φ _ now tc hf]
      exact find?_replaceFirst_self _ _ _ tc hf
        (fun x _ => by rw [setFU_id]; exact htcid)
    · intro ψ x hx
      by_cases hpsi : ψ = φ
      · subst hpsi
        rw [getF_setFU_same] at hx
        exact List.mem_of_mem_filter hx
      · rw [getF_setFU_other _ _ _ _ _ hpsi] at hx
        exact hx
    · rw [getF_setFU_same]
      intro hmem2
      have := List.of_mem_filter hmem2
      simp at this
  · rw [if_neg hmem]
    exact ⟨tc, hf, rfl, rfl, fun ψ x hx => hx, hmem⟩

theorem foldl_removeFieldStep_target (fields : List RField)
    (targetId srcId : Nat) (now : Nat) :
    ∀ st tc, st.cards.find? (fun c => c.id = targetId) = some tc →
      ∃ tc2, (fields.foldl (removeFieldStep targetId srcId now) st).cards.find?
          (fun c => c.id = targetId) = some tc2 ∧
        tc2.id = tc.id ∧ tc2.type = tc.type ∧
        (∀ ψ, ∀ x ∈ getF tc2 ψ, x ∈ getF tc ψ) ∧
        (∀ ψ ∈ fields, srcId ∉ getF tc2 ψ) := by
  induction fields with
  | nil =>
    intro st tc hf
    exact ⟨tc, hf, rfl, rfl, fun ψ x hx => hx, fun ψ hψ => absurd hψ
      (List.not_mem_nil ψ)⟩
  | cons φ rest ih =>
    intro st tc hf
    obtain ⟨tc1, hf1, hid1, hty1, hsub1, hstr1⟩ :=
      removeFieldStep_target targetId srcId now st φ tc hf
    obtain ⟨tc2, hf2, hid2, hty2, hsub2, hstr2⟩ :=
      ih (removeFieldStep targetId srcId now st φ) tc1 hf1
    refine ⟨tc2, hf2, hid2.trans hid1, hty2.trans hty1, ?_, ?_⟩
    · exact fun ψ x hx => hsub1 ψ x (hsub2 ψ x hx)
    · intro ψ hψ
      rcases List.mem_cons.mp hψ with rfl | hmem
      · exact fun hx => hstr1 (hsub2 ψ srcId hx)
      · exact hstr2 ψ hmem

theorem foldl_removeFieldStep_find_other (fields : List RField)
    (targetId srcId : Nat) (now : Nat) (y : Nat) (hne : ¬ y = targetId) :
    ∀ st, (fields.foldl (removeFieldStep targetId srcId now) st).cards.find?
        (fun c => c.id = y)
      = st.cards.find? (fun c => c.id = y) := by
  induction fields with
  | nil => exact fun st => rfl
  | cons φ rest ih =>
    intro st
    rw [List.foldl_cons, ih]
    exact removeFieldStep_find_other targetId srcId now st φ y hne

theorem foldl_removeFieldStep_ids (fields : List RField)
    (targetId srcId : Nat) (now : Nat) :
    ∀ st, (fields.foldl (removeFieldStep targetId srcId now) st).cards.map
        (fun c => c.id)
      = st.cards.map (fun c => c.id) := by
  induction fields with
  | nil => exact fun st => rfl
  | cons φ rest ih =>
    intro st
    rw [List.foldl_cons, ih]
    exact removeFieldStep_ids targetId srcId now st φ

theorem removeMC_stripped (s : DataStore) (targetId srcId : Nat) (now : Nat) :
    ∀ Y, (removeMutualConnection s targetId srcId now).cards.find?
        (fun c => c.id = targetId) = some Y →
      ∀ ψ, srcId ∉ getF Y ψ := by
  unfold removeMutualConnection
  cases hf : s.cards.find? (fun c => c.id = targetId) with
  | none =>
    intro Y hY
    rw [hf] at hY
    cases hY
  | some tc0 =>
    intro Y hY ψ
    obtain ⟨tc2, hfind2, _, _, _, hstr⟩ :=
      foldl_removeFieldStep_target connectionFieldsList targetId srcId now
        s tc0 hf
    rw [hfind2] at hY
    obtain rfl : tc2 = Y := by injection hY
    exact hstr ψ (mem_connectionFieldsList ψ)

theorem removeMC_find_other (s : DataStore) (targetId srcId : Nat) (now : Nat)
    (y : Nat) (hne : ¬ y = targetId) :
    (removeMutualConnection s targetId srcId now).cards.find?
        (fun c => c.id = y)
      = s.cards.find? (fun c => c.id = y) := by
  unfold removeMutualConnection
  cases hf : s.cards.find? (fun c => c.id = targetId) with
  | none => rfl
  | some tc0 =>
    exact foldl_removeFieldStep_find_other connectionFieldsList targetId srcId
      now y hne s

theorem removeMC_ids (s : DataStore) (targetId srcId : Nat) (now : Nat) :
    (removeMutualConnection s targetId srcId now).cards.map (fun c => c.id)
      = s.cards.map (fun c => c.id) := by
  unfold removeMutualConnection
  cases hf : s.cards.find? (fun c => c.id = targetId) with
  | none => rfl
  | some tc0 =>
    exact foldl_removeFieldStep_ids connectionFieldsList targetId srcId now s

/-- The first card carrying id `y` (if any) holds `srcId` in none of its
relationship fields. -/
def StrippedId (srcId : Nat) (st : DataStore) (y : Nat) : Prop :=
  ∀ Y, st.cards.find? (fun c => c.id = y) = some Y → ∀ ψ, srcId ∉ getF Y ψ

theorem foldl_removeMC_strippedId (ts : List Nat) (src : Nat) (now : Nat) :
    ∀ st y, (StrippedId src st y ∨ y ∈ ts) →
      StrippedId src
        (ts.foldl (fun acc t => removeMutualConnection acc t src now) st) y := by
  induction ts with
  | nil =>
    intro st y h
    rcases h with h | h
    · exact h
    · cases h
  | cons t rest ih =>
    intro st y h
    rw [List.foldl_cons]
    apply ih
    by_cases hyt : y = t
    · subst hyt
      exact Or.inl (removeMC_stripped st y src now)
    · rcases h with h | h
      · refine Or.inl ?_
        intro Y hY ψ
        rw [removeMC_find_other st t src now y hyt] at hY
        exact h Y hY ψ
      · rcases List.mem_cons.mp h with rfl | hmem
        · exact absurd rfl hyt
        · exact Or.inr hmem

theorem foldl_removeMC_find_other (ts : List Nat) (src : Nat) (now : Nat)
    (y : Nat) (h : y ∉ ts) :
    ∀ st, ((ts.foldl (fun acc t => removeMutualConnection acc t src now)
        st).cards.find? (fun c => c.id = y))
      = st.cards.find? (fun c => c.id = y) := by
  induction ts with
  | nil => exact fun st => rfl
  | cons t rest ih =>
    intro st
    rw [List.foldl_cons,
      ih (fun hh => h (List.mem_cons_of_mem _ hh))]
    exact removeMC_find_other st t src now y
      (fun hh => h (by rw [hh]; exact List.mem_cons_self _ _))

theorem foldl_removeMC_ids (ts : List Nat) (src : Nat) (now : Nat) :
    ∀ st, ((ts.foldl (fun acc t => removeMutualConnection acc t src now)
        st).cards.map (fun c => c.id))
      = st.cards.map (fun c => c.id) := by
  induction ts with
  | nil => exact fun st => rfl
  | cons t rest ih =>
    intro st
    rw [List.foldl_cons, ih, removeMC_ids]

theorem removeAll_stripped (fields : List RField) (card : Card) (now : Nat) :
    ∀ s y, (StrippedId card.id s y ∨ ∃ φ ∈ fields, y ∈ getF card φ) →
      StrippedId card.id
        (fields.foldl (fun st φ =>
          (getF card φ).foldl (fun st2 targetId =>
            removeMutualConnection st2 targetId card.id now) st) s) y := by
  induction fields with
  | nil =>
    intro s y h
    rcases h with h | ⟨φ, hφ, _⟩
    · exact h
    · cases hφ
  | cons φ rest ih =>
    intro s y h
    rw [List.foldl_cons]
    apply ih
    rcases h with h | ⟨ψ, hψ, hmem⟩
    · exact Or.inl (foldl_removeMC_strippedId _ _ now s y (Or.inl h))
    · rcases List.mem_cons.mp hψ with rfl | hrest
      · exact Or.inl (foldl_removeMC_strippedId _ _ now s y (Or.inr hmem))
      · exact Or.inr ⟨ψ, hrest, hmem⟩

theorem removeAll_find_other (fields : List RField) (card : Card) (now : Nat)
    (y : Nat) (h : ∀ φ, y ∉ getF card φ) :
    ∀ s, ((fields.foldl (fun st φ =>
        (getF card φ).foldl (fun st2 targetId =>
          removeMutualConnection st2 targetId card.id now) st) s).cards.find?
            (fun c => c.id = y))
      = s.cards.find? (fun c => c.id = y) := by
  induction fields with
  | nil => exact fun s => rfl
  | cons φ rest ih =>
    intro s
    rw [List.foldl_cons, ih]
    exact foldl_removeMC_find_other (getF card φ) card.id now y (h φ) s

theorem removeAll_ids (fields : List RField) (card : Card) (now : Nat) :
    ∀ s, ((fields.foldl (fun st φ =>
        (getF card φ).foldl (fun st2 targetId =>
          removeMutualConnection st2 targetId card.id now) st) s).cards.map
            (fun c => c.id))
      = s.cards.map (fun c => c.id) := by
  induction fields with
  | nil => exact fun s => rfl
  | cons φ rest ih =>
    intro s
    rw [List.foldl_cons, ih, foldl_removeMC_ids]

theorem stripDeleted_getF_sub (id : Nat) (c : Card) (φ : RField) (x : Nat)
    (hx : x ∈ getF (stripDeleted id c) φ) : x ∈ getF c φ := by
  cases φ <;> first
    | exact hx
    | exact List.mem_of_mem_filter hx

theorem stripDeleted_not_mem (id : Nat) (c : Card) (φ : RField)
    (hφ : φ = RField.adjacentLocations ∨ φ = RField.presentCharacters ∨
      φ = RField.bonds) :
    id ∉ getF (stripDeleted id c) φ := by
  rcases hφ with rfl | rfl | rfl <;>
  · intro hmem
    have := List.of_mem_filter hmem
    simp at this

/-- Store of the C6 counterexample: a location (id 2) referencing an event
(id 1) one-way in `relatedEvents`.  This state arises from the plain form
flow: the form writes a location's `relatedEvents` directly when it is
saved, the synchronizer's `connectionMappings` has no row for that field, so
nothing is ever written back onto the event. -/
def c6oneStore : DataStore :=
  { cards :=
      [{ baseCard with
          id := 1
          type := "evento" },
       { baseCard with
          id := 2
          type := "local"
          relatedEvents := [1] }] }

/-- The event deleted in the C6 counterexample; it holds no outbound
references. -/
def c6E : Card :=
  { baseCard with
      id := 1
      type := "evento" }

/-- C6: the claim says that after card X's deletion flow no remaining card's
relationship field contains X's id.  `removeAllMutualConnections` follows
only X's own outbound fields, and `deleteCard` strips X's id only from
`adjacentLocations`, `presentCharacters` and `bonds` of the remaining cards —
so a card referencing X one-way in `relatedEvents` (an ordinary state, since
the form writes that field without synchronization) keeps the dangling id:
deleting event 1 leaves location 2 with `relatedEvents = [1]`. -/
theorem c6_counterexample :
    ((deleteCard (removeAllMutualConnections c6oneStore c6E 9)
        c6E.id).1.cards.map (fun c => c.id) = [2]) ∧
    (1 : Nat) ∈ getF ((deleteCard (removeAllMutualConnections c6oneStore c6E 9)
        c6E.id).1.cards.get ⟨0, by decide⟩) RField.relatedEvents := by
  decide

/-- C6 amended: what the deletion flow does guarantee.  After
`removeAllMutualConnections(X)` followed by `deleteCard(X.id)`, with
pairwise-distinct ids and X a stored card: (a) no remaining card holds X's
id in the three symmetric fields `adjacentLocations`, `presentCharacters`,
`bonds` (stripped by `deleteCard` itself), and (b) a remaining card that X
referenced in any of its own relationship fields holds X's id in no field at
all (its reciprocals are removed by the outbound pass).  A dangling X.id can
survive only in `relatedLocations`, `relatedCharacters`, `relatedEvents` or
`presentLocations` of a card X did not reference — the one-way states of the
counterexample. -/
theorem c6_delete_strips (s : DataStore) (X : Card) (now : Nat)
    (hnd : IdsNodup s) (hX : X ∈ s.cards) :
    ∀ Y ∈ (deleteCard (removeAllMutualConnections s X now) X.id).1.cards,
      (∀ φ, φ = RField.adjacentLocations ∨ φ = RField.presentCharacters ∨
        φ = RField.bonds → X.id ∉ getF Y φ) ∧
      ((∃ ψ, Y.id ∈ getF X ψ) → ∀ φ, X.id ∉ getF Y φ) := by
  have hids2 : (removeAllMutualConnections s X now).cards.map (fun c => c.id)
      = s.cards.map (fun c => c.id) :=
    removeAll_ids connectionFieldsList X now s
  have hnd2 : ((removeAllMutualConnections s X now).cards.map
      (fun c => c.id)).Nodup := by
    rw [hids2]
    exact hnd
  have step2 : ∀ Z ∈ (removeAllMutualConnections s X now).cards,
      (∃ ψ, Z.id ∈ getF X ψ) → ∀ φ, X.id ∉ getF Z φ := by
    rintro Z hZ ⟨ψ, hmem⟩ φ
    have hfind : (removeAllMutualConnections s X now).cards.find?
        (fun c => c.id = Z.id) = some Z :=
      find?_of_mem_nodup _ hnd2 Z hZ
    have hstr : StrippedId X.id (removeAllMutualConnections s X now) Z.id :=
      removeAll_stripped connectionFieldsList X now s Z.id
        (Or.inr ⟨ψ, mem_connectionFieldsList ψ, hmem⟩)
    exact hstr Z hfind φ
  intro Y hY
  cases hidx : (removeAllMutualConnections s X now).cards.findIdx?
      (fun c => c.id = X.id) with
  | none =>
    exfalso
    have hXid : X.id ∈ (removeAllMutualConnections s X now).cards.map
        (fun c => c.id) := by
      rw [hids2]
      exact List.mem_map.mpr ⟨X, hX, rfl⟩
    obtain ⟨c, hc, hcid⟩ := List.mem_map.mp hXid
    have hfalse := List.findIdx?_eq_none_iff.mp hidx c hc
    simp [hcid] at hfalse
  | some idx =>
    rw [deleteCard_eq_some _ _ idx hidx] at hY
    have hY2 : Y ∈ (removeAllMutualConnections s X now).cards.map
        (stripDeleted X.id) :=
      (List.eraseIdx_sublist _ idx).subset hY
    obtain ⟨Z, hZ, rfl⟩ := List.mem_map.mp hY2
    constructor
    · intro φ hφ
      exact stripDeleted_not_mem X.id Z φ hφ
    · rintro ⟨ψ, hmem⟩ φ hXin
      have hZid : (stripDeleted X.id Z).id = Z.id := stripDeleted_id _ _
      exact step2 Z hZ ⟨ψ, hZid ▸ hmem⟩ φ
        (stripDeleted_getF_sub X.id Z φ X.id hXin)

/-- Store for the C6 witness: an event (id 1) linked both ways with a
location (id 2). -/
def c6store : DataStore :=
  { cards :=
      [{ baseCard with
          id := 1
          type := "evento"
          relatedLocations := [2] },
       { baseCard with
          id := 2
          type := "local"
          relatedEvents := [1] }] }

/-- The card deleted in the C6 witness. -/
def c6X : Card :=
  { baseCard with
      id := 1
      type := "evento"
      relatedLocations := [2] }

/-- Witness for `c6_delete_strips`: the deleted event referenced the
location, so after the flow the remaining location's `relatedEvents` no
longer mentions it. -/
theorem c6_delete_strips_witness :
    (1 : Nat) ∉ getF
      ((deleteCard (removeAllMutualConnections c6store c6X 9)
        c6X.id).1.cards.get ⟨0, by decide⟩) RField.relatedEvents := by
  have h := c6_delete_strips c6store c6X 9
    (by show (c6store.cards.map (fun c => c.id)).Nodup; decide) (by decide)
  exact (h _ (List.get_mem _ _ _)).2 ⟨RField.relatedLocations, by decide⟩
    RField.relatedEvents

theorem addMC_establishes (s : DataStore) (targetId srcId : Nat)
    (tf : RField) (ty : String) (now : Nat) :
    ∀ T2, (addMutualConnection s targetId srcId tf ty now).cards.find?
        (fun c => c.id = targetId) = some T2 →
      srcId ∈ getF T2 (recipFieldFor T2.type ty tf) := by
  unfold addMutualConnection
  cases hf : s.cards.find? (fun c => c.id = targetId) with
  | none =>
    intro T2 hT2
    rw [hf] at hT2
    cases hT2
  | some T =>
    have htid : T.id = targetId := by
      have := List.find?_some hf
      simpa using this
    simp only
    by_cases hmem : srcId ∈ getF T (recipFieldFor T.type ty tf)
    · rw [if_pos hmem]
      intro T2 hT2
      rw [hf] at hT2
      obtain rfl : T = T2 := by injection hT2
      exact hmem
    · rw [if_neg hmem]
      intro T2 hT2
      rw [updateCard_patchField s targetId _ _ now T hf] at hT2
      rw [find?_replaceFirst_self s.cards targetId _ T hf
        (fun x _ => by rw [setFU_id]; exact htid)] at hT2
      obtain rfl : setFU T (recipFieldFor T.type ty tf)
          (getF T (recipFieldFor T.type ty tf) ++ [srcId]) now = T2 := by
        injection hT2
      rw [setFU_type, getF_setFU_same]
      exact List.mem_append_right _ (List.mem_cons_self _ _)

theorem addMC_mono (s : DataStore) (targetId srcId : Nat) (tf : RField)
    (ty : String) (now : Nat) (y : Nat) :
    ∀ T2, (addMutualConnection s targetId srcId tf ty now).cards.find?
        (fun c => c.id = y) = some T2 →
      ∃ T1, s.cards.find? (fun c => c.id = y) = some T1 ∧
        T2.type = T1.type ∧ ∀ ψ, ∀ x ∈ getF T1 ψ, x ∈ getF T2 ψ := by
  unfold addMutualConnection
  cases hf : s.cards.find? (fun c => c.id = targetId) with
  | none => exact fun T2 hT2 => ⟨T2, hT2, rfl, fun ψ x hx => hx⟩
  | some T =>
    have htid : T.id = targetId := by
      have := List.find?_some hf
      simpa using this
    simp only
    by_cases hmem : srcId ∈ getF T (recipFieldFor T.type ty tf)
    · rw [if_pos hmem]
      exact fun T2 hT2 => ⟨T2, hT2, rfl, fun ψ x hx => hx⟩
    · rw [if_neg hmem]
      intro T2 hT2
      rw [updateCard_patchField s targetId _ _ now T hf] at hT2
      by_cases hy : y = targetId
      · subst hy
        rw [find?_replaceFirst_self s.cards y _ T hf
          (fun x _ => by rw [setFU_id]; exact htid)] at hT2
        obtain rfl : setFU T (recipFieldFor T.type ty tf)
            (getF T (recipFieldFor T.type ty tf) ++ [srcId]) now = T2 := by
          injection hT2
        refine ⟨T, hf, setFU_type _ _ _ _, ?_⟩
        intro ψ x hx
        by_cases hψ : ψ = recipFieldFor T.type ty tf
        · subst hψ
          rw [getF_setFU_same]
          exact List.mem_append_left _ hx
        · rw [getF_setFU_other _ _ _ _ _ hψ]
          exact hx
      · rw [find?_replaceFirst_other s.cards targetId y _
          (fun x _ => by rw [setFU_id]; exact htid) hy] at hT2
        exact ⟨T2, hT2, rfl, fun ψ x hx => hx⟩

/-- The saved card's id sits in the reciprocal field (determined from the
stored target's actual type) of the first card carrying id `tid`. -/
def ReciprocalIn (cardId : Nat) (cardType : String) (fld : RField)
    (st : DataStore) (tid : Nat) : Prop :=
  ∀ T2, st.cards.find? (fun c => c.id = tid) = some T2 →
    cardId ∈ getF T2 (recipFieldFor T2.type cardType fld)

theorem addMC_pres (st : DataStore) (t srcId : Nat) (tf : RField)
    (ty : String) (now : Nat) (cardId : Nat) (cardType : String) (fld : RField)
    (tid : Nat) (h : ReciprocalIn cardId cardType fld st tid) :
    ReciprocalIn cardId cardType fld
      (addMutualConnection st t srcId tf ty now) tid := by
  intro T2 hT2
  obtain ⟨T1, hT1, hty, hsub⟩ := addMC_mono st t srcId tf ty now tid T2 hT2
  rw [hty]
  exact hsub _ _ (h T1 hT1)

theorem removeMC_pres (st : DataStore) (t srcId : Nat) (now : Nat)
    (cardId : Nat) (cardType : String) (fld : RField) (tid : Nat)
    (hne : ¬ tid = t) (h : ReciprocalIn cardId cardType fld st tid) :
    ReciprocalIn cardId cardType fld
      (removeMutualConnection st t srcId now) tid := by
  intro T2 hT2
  rw [removeMC_find_other st t srcId now tid hne] at hT2
  exact h T2 hT2

theorem addfold_pres (as : List Nat) (cardId : Nat) (cardType : String)
    (tf : RField) (now : Nat) (fld : RField) (tid : Nat) :
    ∀ st, ReciprocalIn cardId cardType fld st tid →
      ReciprocalIn cardId cardType fld
        (as.foldl (fun acc targetId =>
          addMutualConnection acc targetId cardId tf cardType now) st) tid := by
  induction as with
  | nil => exact fun st h => h
  | cons a rest ih =>
    intro st h
    rw [List.foldl_cons]
    exact ih _ (addMC_pres st a cardId tf cardType now cardId cardType fld tid h)

theorem addfold_estab (as : List Nat) (cardId : Nat) (cardType : String)
    (tf : RField) (now : Nat) (tid : Nat) (hmem : tid ∈ as) :
    ∀ st, ReciprocalIn cardId cardType tf
      (as.foldl (fun acc targetId =>
        addMutualConnection acc targetId cardId tf cardType now) st) tid := by
  induction as with
  | nil => cases hmem
  | cons a rest ih =>
    intro st
    rw [List.foldl_cons]
    rcases List.mem_cons.mp hmem with rfl | hrest
    · by_cases hr : tid ∈ rest
      · exact ih hr _
      · apply addfold_pres
        exact addMC_establishes st tid cardId tf cardType now
    · exact ih hrest _

theorem remfold_pres (rs : List Nat) (cardId : Nat) (now : Nat)
    (cardType : String) (fld : RField) (tid : Nat) (hnot : tid ∉ rs) :
    ∀ st, ReciprocalIn cardId cardType fld st tid →
      ReciprocalIn cardId cardType fld
        (rs.foldl (fun acc targetId =>
          removeMutualConnection acc targetId cardId now) st) tid := by
  induction rs with
  | nil => exact fun st h => h
  | cons r rest ih =>
    intro st h
    rw [List.foldl_cons]
    refine ih (fun hh => hnot (List.mem_cons_of_mem _ hh)) _ ?_
    exact removeMC_pres st r cardId now cardId cardType fld tid
      (fun hh => hnot (by rw [hh]; exact List.mem_cons_self _ _)) h

theorem syncField_pres (cardId : Nat) (cardType : String) (cur : ConnFields)
    (prevOpt : Option ConnFields) (now : Nat) (fp : RField × RField)
    (fld : RField) (tid : Nat)
    (hnotrem : tid ∈ prevConns prevOpt fp.1 → tid ∈ getCF cur fp.1) :
    ∀ st, ReciprocalIn cardId cardType fld st tid →
      ReciprocalIn cardId cardType fld
        (syncField cardId cardType cur prevOpt now st fp) tid := by
  intro st h
  unfold syncField
  apply remfold_pres
  · intro hmem
    have hsp := List.mem_filter.mp hmem
    have : tid ∉ getCF cur fp.1 := by simpa using hsp.2
    exact this (hnotrem hsp.1)
  · exact addfold_pres _ _ _ _ _ _ _ _ h

theorem syncField_estab (cardId : Nat) (cardType : String) (cur : ConnFields)
    (prevOpt : Option ConnFields) (now : Nat) (fp : RField × RField)
    (tid : Nat) (hcur : tid ∈ getCF cur fp.1)
    (hprev : tid ∉ prevConns prevOpt fp.1) :
    ∀ st, ReciprocalIn cardId cardType fp.2
      (syncField cardId cardType cur prevOpt now st fp) tid := by
  intro st
  unfold syncField
  apply remfold_pres
  · intro hmem
    have hsp := List.mem_filter.mp hmem
    have : tid ∉ getCF cur fp.1 := by simpa using hsp.2
    exact this hcur
  · apply addfold_estab
    exact List.mem_filter.mpr ⟨hcur, by simpa using hprev⟩

theorem syncfold_pres (maps : List (RField × RField)) (cardId : Nat)
    (cardType : String) (cur : ConnFields) (prevOpt : Option ConnFields)
    (now : Nat) (fld : RField) (tid : Nat)
    (hdisj : ∀ g ∈ maps, tid ∈ prevConns prevOpt g.1 → tid ∈ getCF cur g.1) :
    ∀ st, ReciprocalIn cardId cardType fld st tid →
      ReciprocalIn cardId cardType fld
        (maps.foldl (syncField cardId cardType cur prevOpt now) st) tid := by
  induction maps with
  | nil => exact fun st h => h
  | cons g rest ih =>
    intro st h
    rw [List.foldl_cons]
    refine ih (fun g2 hg2 => hdisj g2 (List.mem_cons_of_mem _ hg2)) _ ?_
    exact syncField_pres cardId cardType cur prevOpt now g fld tid
      (hdisj g (List.mem_cons_self _ _)) st h

/-- Store of the C1 counterexample: event 1 references location 2 in
`relatedLocations`, but location 2's `relatedEvents` is empty.  This state
arises from the plain form flow: the form writes a location's
`relatedEvents` directly (without synchronization, since
`connectionMappings` has no row for that field), so editing location 2 and
clearing that field leaves the event's edge one-way. -/
def c1storeE : DataStore :=
  { cards :=
      [{ baseCard with
          id := 1
          type := "evento"
          relatedLocations := [2] },
       { baseCard with
          id := 2
          type := "local" }] }

/-- Field snapshot of the C1 counterexample: the event keeps
`relatedLocations = [2]` across the save, so the edge is neither added nor
removed by the synchronizer's diff. -/
def c1curE : ConnFields :=
  { relatedLocations := [2], relatedCharacters := [],
    adjacentLocations := [], presentCharacters := [], bonds := [] }

/-- C1: the claim quantifies over every id in the saved card's mapped source
field, kept edges included.  The synchronizer only diffs new against
previous connections: an edge present on both sides of the save is not
touched, so when its reciprocal is already missing — a reachable state,
because the form writes the reciprocal-only fields `relatedEvents` and
`presentLocations` directly and no mapping row ever syncs them — the save
completes with the target still not referencing the saved card.  Saving
event 1 with `relatedLocations = [2]` kept from the previous snapshot leaves
location 2 resolvable and still missing event 1 in its reciprocal field. -/
theorem c1_counterexample :
    (2 : Nat) ∈ getCF c1curE RField.relatedLocations ∧
    (RField.relatedLocations, RField.relatedEvents)
      ∈ connectionMappings "evento" ∧
    (updateMutualConnections c1storeE 1 "evento" c1curE (some c1curE)
        5).cards.find? (fun c => c.id = 2)
      = some { baseCard with id := 2, type := "local" } ∧
    (1 : Nat) ∉ getF ({ baseCard with id := 2, type := "local" } : Card)
      (recipFieldFor "local" "evento" RField.relatedEvents) := by
  decide

/-- C1 amended: what the synchronizer does guarantee for a save.  For every
mapped source field of the saved card's type and every id in its new value,
the first stored card `T` carrying that id ends up holding the saved card's
id in the reciprocal field determined by `T`'s actual type crossed with the
saved card's type, provided the edge is newly added (absent from the
previous snapshot) or its reciprocal already held before the save; a kept
edge whose reciprocal is already missing is not repaired (the
counterexample).  `hH2` is a consequence of spec invariant I4: fields only
hold ids of their target type, and distinct mapped fields of one source type
target distinct types, so an id kept or added in one field cannot
simultaneously be removed via another. -/
theorem c1_sync_adds_reciprocity (s : DataStore) (cardId : Nat)
    (cardType : String) (cur : ConnFields) (prevOpt : Option ConnFields)
    (now : Nat)
    (hH2 : ∀ tid f, f ∈ connectionMappings cardType → tid ∈ getCF cur f.1 →
      ∀ g ∈ connectionMappings cardType,
        tid ∈ prevConns prevOpt g.1 → tid ∈ getCF cur g.1) :
    ∀ f ∈ connectionMappings cardType, ∀ tid ∈ getCF cur f.1,
      tid ∉ prevConns prevOpt f.1 ∨ ReciprocalIn cardId cardType f.2 s tid →
      ReciprocalIn cardId cardType f.2
        (updateMutualConnections s cardId cardType cur prevOpt now) tid := by
  intro f hf tid htid hpre
  have hdisj : ∀ g ∈ connectionMappings cardType,
      tid ∈ prevConns prevOpt g.1 → tid ∈ getCF cur g.1 :=
    hH2 tid f hf htid
  obtain ⟨m1, m2, hmaps⟩ := List.append_of_mem hf
  unfold updateMutualConnections
  rw [hmaps, List.foldl_append, List.foldl_cons]
  have hm2 : ∀ g ∈ m2, tid ∈ prevConns prevOpt g.1 → tid ∈ getCF cur g.1 := by
    intro g hg
    refine hdisj g ?_
    rw [hmaps]
    exact List.mem_append_right _ (List.mem_cons_of_mem _ hg)
  apply syncfold_pres m2 cardId cardType cur prevOpt now f.2 tid hm2
  by_cases hprev : tid ∈ prevConns prevOpt f.1
  · have h0 : ReciprocalIn cardId cardType f.2 s tid := by
      rcases hpre with hnp | h0
      · exact absurd hprev hnp
      · exact h0
    have hm1 : ∀ g ∈ m1, tid ∈ prevConns prevOpt g.1 → tid ∈ getCF cur g.1 := by
      intro g hg
      refine hdisj g ?_
      rw [hmaps]
      exact List.mem_append_left _ hg
    have h1 := syncfold_pres m1 cardId cardType cur prevOpt now f.2 tid hm1 s h0
    exact syncField_pres cardId cardType cur prevOpt now f f.2 tid
      (fun hh => htid) _ h1
  · exact syncField_estab cardId cardType cur prevOpt now f tid htid hprev _

/-- Store for the C1 witness: two characters, not yet bonded. -/
def c1store : DataStore :=
  { cards := [{ baseCard with id := 1, type := "personagem" },
              { baseCard with id := 2, type := "personagem" }] }

/-- New field values for the C1 witness: character 1 takes a bond to
character 2. -/
def c1cur : ConnFields :=
  { relatedLocations := [], relatedCharacters := [],
    adjacentLocations := [], presentCharacters := [], bonds := [2] }

/-- Witness for `c1_sync_adds_reciprocity`: after saving character 1 with a
newly added `bonds = [2]`, the stored character 2 carries 1 in its `bonds`
field. -/
theorem c1_sync_adds_reciprocity_witness :
    (1 : Nat) ∈ getF
      ((updateMutualConnections c1store 1 "personagem" c1cur none 5).cards.get
        ⟨1, by decide⟩) RField.bonds := by
  have h := c1_sync_adds_reciprocity c1store 1 "personagem" c1cur none 5
    (by intro tid f hf htid g hg hprev; simp [prevConns] at hprev)
    (RField.bonds, RField.bonds) (by decide) 2 (by decide)
    (Or.inl (by simp [prevConns]))
  exact h ((updateMutualConnections c1store 1 "personagem" c1cur none
      5).cards.get ⟨1, by decide⟩) (by decide)

/-- Lookup in the `idMapping` object built by the first import pass.  JS
object assignment lets a later duplicate key overwrite an earlier one, which
is lookup on the reversed association list. -/
def mapId (m : List (Nat × Nat)) (id : Nat) : Option Nat :=
  (m.reverse).lookup id

/-- `.map(id => idMapping[id] || id).filter(id => id)` of the import's second
pass: a reference that resolves is rewritten (generated ids are non-empty
strings, hence truthy); one that does not resolve is kept as is; only falsy
ids — modelled by 0 — are dropped by the final filter. -/
def rewriteRefList (m : List (Nat × Nat)) (l : List Nat) : List Nat :=
  (l.map (fun rid => (mapId m rid).getD rid)).filter (fun i => ¬ i = 0)

/-- The `newCard` object of the import's second pass before numbering and
stamping: fresh id, and the five fields `adjacentLocations`,
`presentCharacters`, `bonds`, `relatedLocations`, `relatedCharacters`
rewritten.  `relatedEvents` and `presentLocations` are copied verbatim by
`{ ...card }` — the import loop never rewrites them.  `newCard.id =
idMapping[card.id]` always resolves because every imported id was entered in
the first pass, so the `getD 0` default is never used. -/
def rewriteCard (m : List (Nat × Nat)) (c : Card) : Card :=
  { c with
    id := (mapId m c.id).getD 0
    adjacentLocations := rewriteRefList m c.adjacentLocations
    presentCharacters := rewriteRefList m c.presentCharacters
    bonds := rewriteRefList m c.bonds
    relatedLocations := rewriteRefList m c.relatedLocations
    relatedCharacters := rewriteRefList m c.relatedCharacters }

/-- One iteration of the import insertion loop: rewrite, assign a number via
`getNextNumber` when the card lacks a truthy one, stamp fresh timestamps, and
push. -/
def importStep (m : List (Nat × Nat)) (now : Nat) (st : DataStore)
    (card : Card) : DataStore :=
  let newCard := rewriteCard m card
  let newCard2 :=
    if truthyNum newCard.number then newCard
    else { newCard with number := some (getNextNumber st newCard.type) }
  let newCard3 := { newCard2 with createdAt := now, updatedAt := now }
  { cards := st.cards ++ [newCard3] }

/-- `importCards` of src/app.js (the successful path, after the payload shape
check): generate a fresh id per incoming card (`newIds`, modelling the
`generateId()` results of the first pass), insert every card with rewritten
references, then run `ensureAllCardsHaveNumbers` as the final pass. -/
def importCards (s : DataStore) (payload : List Card) (newIds : List Nat)
    (now : Nat) : DataStore :=
  let idMapping := (payload.map (fun c => c.id)).zip newIds
  ensureAllCardsHaveNumbers (payload.foldl (importStep idMapping now) s)

/-- Exported payload of the C7 counterexample: an event and a location linked
both ways (the `relatedEvents` half is the reciprocal the synchronizer
maintains). -/
def c7payload : List Card :=
  [{ baseCard with
      id := 1
      type := "evento"
      name := "E"
      number := some 1
      relatedLocations := [2] },
   { baseCard with
      id := 2
      type := "local"
      name := "L"
      number := some 1
      relatedEvents := [1] }]

/-- C7: the claim says importing an export into a fresh store preserves every
relationship edge modulo the id renaming.  The import never rewrites
`relatedEvents` (nor `presentLocations`): the imported location keeps the
stale exported id 1 there, and carries no edge to the imported event, whose
new id is 10 — the original `relatedEvents` edge between the two cards is
lost. -/
theorem c7_counterexample :
    ((importCards emptyStore c7payload [10, 11] 9).cards.get
        ⟨0, by decide⟩).id = 10 ∧
    getF ((importCards emptyStore c7payload [10, 11] 9).cards.get
        ⟨1, by decide⟩) RField.relatedEvents = [1] ∧
    (10 : Nat) ∉ getF ((importCards emptyStore c7payload [10, 11] 9).cards.get
        ⟨1, by decide⟩) RField.relatedEvents ∧
    getF ({ baseCard with
      id := 2
      type := "local"
      name := "L"
      number := some 1
      relatedEvents := [1] }) RField.relatedEvents = [1] := by
  decide

/-- Payload of the C8 counterexample: a location referencing an id that is
not part of the export. -/
def c8payload : List Card :=
  [{ baseCard with
      id := 5
      type := "local"
      name := "A"
      number := some 1
      adjacentLocations := [7] }]

/-- C8: the claim says a reference that fails to resolve in the old-to-new id
mapping is dropped, so no imported card keeps an exporting-session id.  The
code's `idMapping[id] || id` falls back to the old id: the unresolvable
reference 7 survives the import verbatim. -/
theorem c8_counterexample :
    getF ((importCards emptyStore c8payload [10] 9).cards.get
        ⟨0, by decide⟩) RField.adjacentLocations = [7] ∧
    ((importCards emptyStore c8payload [10] 9).cards.get
        ⟨0, by decide⟩).id = 10 := by
  decide

/-- The stamping performed on each inserted card by the import loop: some
number (either the rewritten card's own or one freshly assigned), and both
timestamps set to the import time. -/
def restamp (c : Card) (nn : Option Int) (now : Nat) : Card :=
  { c with
    number := nn
    createdAt := now
    updatedAt := now }

theorem getF_restamp (c : Card) (nn : Option Int) (now : Nat) (φ : RField) :
    getF (restamp c nn now) φ = getF c φ := by
  cases φ <;> rfl

theorem restamp_name (c : Card) (nn : Option Int) (now : Nat) :
    (restamp c nn now).name = c.name := rfl

theorem restamp_type (c : Card) (nn : Option Int) (now : Nat) :
    (restamp c nn now).type = c.type := rfl

theorem restamp_resumo (c : Card) (nn : Option Int) (now : Nat) :
    (restamp c nn now).resumo = c.resumo := rfl

theorem restamp_id (c : Card) (nn : Option Int) (now : Nat) :
    (restamp c nn now).id = c.id := rfl

theorem rewriteCard_name (m : List (Nat × Nat)) (c : Card) :
    (rewriteCard m c).name = c.name := rfl

theorem rewriteCard_type (m : List (Nat × Nat)) (c : Card) :
    (rewriteCard m c).type = c.type := rfl

theorem rewriteCard_resumo (m : List (Nat × Nat)) (c : Card) :
    (rewriteCard m c).resumo = c.resumo := rfl

theorem rewriteCard_id (m : List (Nat × Nat)) (c : Card) :
    (rewriteCard m c).id = (mapId m c.id).getD 0 := rfl

theorem rewriteCard_getF_rewritten (m : List (Nat × Nat)) (c : Card)
    (φ : RField)
    (hφ : φ ∈ [RField.adjacentLocations, RField.presentCharacters, RField.bonds,
      RField.relatedLocations, RField.relatedCharacters]) :
    getF (rewriteCard m c) φ = rewriteRefList m (getF c φ) := by
  simp only [List.mem_cons, List.not_mem_nil, or_false] at hφ
  rcases hφ with rfl | rfl | rfl | rfl | rfl <;> rfl

theorem rewriteCard_getF_verbatim (m : List (Nat × Nat)) (c : Card)
    (φ : RField)
    (hφ : φ = RField.relatedEvents ∨ φ = RField.presentLocations) :
    getF (rewriteCard m c) φ = getF c φ := by
  rcases hφ with rfl | rfl <;> rfl

theorem importStep_cards (m : List (Nat × Nat)) (now : Nat) (st : DataStore)
    (c : Card) :
    ∃ nn, importStep m now st c =
      { cards := st.cards ++ [restamp (rewriteCard m c) nn now] } := by
  by_cases ht : truthyNum (rewriteCard m c).number = true
  · refine ⟨(rewriteCard m c).number, ?_⟩
    simp only [importStep]
    rw [if_pos ht]
    rfl
  · refine ⟨some (getNextNumber st (rewriteCard m c).type), ?_⟩
    simp only [importStep]
    rw [if_neg ht]
    rfl

theorem import_fold_decomp (m : List (Nat × Nat)) (now : Nat)
    (payload : List Card) :
    ∀ s : DataStore, ∃ added : List Card,
      (payload.foldl (importStep m now) s).cards = s.cards ++ added ∧
      added.length = payload.length ∧
      ∀ k (hk : k < payload.length) (hk2 : k < added.length), ∃ nn,
        added.get ⟨k, hk2⟩ =
          restamp (rewriteCard m (payload.get ⟨k, hk⟩)) nn now := by
  induction payload with
  | nil =>
    intro s
    refine ⟨[], by simp, rfl, ?_⟩
    intro k hk
    simp at hk
  | cons c rest ih =>
    intro s
    obtain ⟨nn0, hstep⟩ := importStep_cards m now s c
    obtain ⟨added, hcards, hlen, hget⟩ := ih (importStep m now s c)
    refine ⟨restamp (rewriteCard m c) nn0 now :: added, ?_, ?_, ?_⟩
    · rw [List.foldl_cons, hcards, hstep]
      simp
    · simp [hlen]
    · intro k hk hk2
      cases k with
      | zero => exact ⟨nn0, rfl⟩
      | succ j =>
        exact hget j (Nat.lt_of_succ_lt_succ hk) (Nat.lt_of_succ_lt_succ hk2)

theorem card_number_set_trans (a b c : Card)
    (h1 : b = a ∨ ∃ v, b = { a with number := some v })
    (h2 : c = b ∨ ∃ v, c = { b with number := some v }) :
    c = a ∨ ∃ v, c = { a with number := some v } := by
  rcases h1 with rfl | ⟨v, rfl⟩
  · exact h2
  · rcases h2 with rfl | ⟨w, rfl⟩
    · exact Or.inr ⟨v, rfl⟩
    · exact Or.inr ⟨w, rfl⟩

theorem ensurePass_eq_or_number (cards : List Card) (t : String) (i : Nat)
    (h : i < cards.length) (h2 : i < (ensurePass cards t).length) :
    (ensurePass cards t)[i] = cards[i] ∨
      ∃ v, (ensurePass cards t)[i] = { cards[i] with number := some v } := by
  rw [ensurePass_getElem cards t i h h2]
  rcases hl : (ensureAssignments cards t).lookup i with _ | v
  · exact Or.inl rfl
  · exact Or.inr ⟨v, rfl⟩

theorem ensureAll_length (s : DataStore) :
    (ensureAllCardsHaveNumbers s).cards.length = s.cards.length := by
  show (ensurePass (ensurePass (ensurePass s.cards "evento") "local")
    "personagem").length = s.cards.length
  rw [ensurePass_length, ensurePass_length, ensurePass_length]

theorem ensureAll_eq_or_number (s : DataStore) (i : Nat)
    (h : i < s.cards.length)
    (h2 : i < (ensureAllCardsHaveNumbers s).cards.length) :
    (ensureAllCardsHaveNumbers s).cards[i] = s.cards[i] ∨
      ∃ v, (ensureAllCardsHaveNumbers s).cards[i]
        = { s.cards[i] with number := some v } := by
  have hl1 : i < (ensurePass s.cards "evento").length := by
    rw [ensurePass_length]; exact h
  have hl2 : i < (ensurePass (ensurePass s.cards "evento") "local").length := by
    rw [ensurePass_length]; exact hl1
  have hl3 : i < (ensurePass (ensurePass (ensurePass s.cards "evento")
      "local") "personagem").length := by
    rw [ensurePass_length]; exact hl2
  have e1 := ensurePass_eq_or_number s.cards "evento" i h hl1
  have e2 := ensurePass_eq_or_number _ "local" i hl1 hl2
  have e3 := ensurePass_eq_or_number _ "personagem" i hl2 hl3
  exact card_number_set_trans _ _ _ (card_number_set_trans _ _ _ e1 e2) e3

theorem nodupkeys_unique {β : Type} (m : List (Nat × β))
    (hnd : (m.map Prod.fst).Nodup) (a : Nat) (v w : β)
    (h1 : (a, v) ∈ m) (h2 : (a, w) ∈ m) : v = w := by
  induction m with
  | nil => cases h1
  | cons p rest ih =>
    rw [List.map_cons, List.nodup_cons] at hnd
    rcases List.mem_cons.mp h1 with heq1 | hm1
    · rcases List.mem_cons.mp h2 with heq2 | hm2
      · rw [← heq1] at heq2
        exact ((Prod.mk.inj heq2).2).symm
      · exfalso
        apply hnd.1
        rw [← heq1]
        exact List.mem_map.mpr ⟨(a, w), hm2, rfl⟩
    · rcases List.mem_cons.mp h2 with heq2 | hm2
      · exfalso
        apply hnd.1
        rw [← heq2]
        exact List.mem_map.mpr ⟨(a, v), hm1, rfl⟩
      · exact ih hnd.2 hm1 hm2

theorem mapId_eq_of_mem (m : List (Nat × Nat))
    (hnd : (m.map Prod.fst).Nodup) (a v : Nat) (hm : (a, v) ∈ m) :
    mapId m a = some v := by
  unfold mapId
  have hm' : (a, v) ∈ m.reverse := List.mem_reverse.mpr hm
  have hnd' : (m.reverse.map Prod.fst).Nodup := by
    rw [List.map_reverse]
    exact List.nodup_reverse.mpr hnd
  obtain ⟨w, hw⟩ := lookup_isSome_of_key a v m.reverse hm'
  have hwm := lookup_mem a w m.reverse hw
  have hvw : w = v := nodupkeys_unique m.reverse hnd' a w v hwm hm'
  rw [hw, hvw]

theorem mapId_eq_none (m : List (Nat × Nat)) (a : Nat)
    (ha : ∀ p ∈ m, p.1 ≠ a) : mapId m a = none := by
  unfold mapId
  exact lookup_none_of_keys a m.reverse
    (fun p hp => ha p (List.mem_reverse.mp hp))

theorem mapId_zip_none (olds news : List Nat) (a : Nat) (ha : a ∉ olds) :
    mapId (olds.zip news) a = none := by
  apply mapId_eq_none
  intro p hp hpa
  obtain ⟨x, y⟩ := p
  exact ha (hpa ▸ (List.of_mem_zip hp).1)

theorem mem_zip_exists_index {α β : Type} (l1 : List α) (l2 : List β)
    (a : α) (b : β) (h : (a, b) ∈ l1.zip l2) :
    ∃ i, ∃ h1 : i < l1.length, ∃ h2 : i < l2.length,
      l1.get ⟨i, h1⟩ = a ∧ l2.get ⟨i, h2⟩ = b := by
  induction l1 generalizing l2 with
  | nil => cases h
  | cons x xs ih =>
    cases l2 with
    | nil => cases h
    | cons y ys =>
      rcases List.mem_cons.mp h with heq | hm
      · obtain ⟨ha, hb⟩ := Prod.mk.inj heq
        exact ⟨0, Nat.succ_pos _, Nat.succ_pos _, ha.symm, hb.symm⟩
      · obtain ⟨i, h1, h2, hga, hgb⟩ := ih ys hm
        exact ⟨i + 1, Nat.succ_lt_succ h1, Nat.succ_lt_succ h2, hga, hgb⟩

theorem mapId_zip_get (olds news : List Nat) (hnd : olds.Nodup)
    (hlen : olds.length ≤ news.length) (j : Nat)
    (hj : j < olds.length) (hj2 : j < news.length) :
    mapId (olds.zip news) (olds.get ⟨j, hj⟩) = some (news.get ⟨j, hj2⟩) := by
  apply mapId_eq_of_mem
  · rw [List.map_fst_zip _ _ hlen]
    exact hnd
  · have hz : j < (olds.zip news).length := by
      rw [List.length_zip]
      exact lt_min hj hj2
    have hget : (olds.zip news).get ⟨j, hz⟩
        = (olds.get ⟨j, hj⟩, news.get ⟨j, hj2⟩) := by
      simp [List.getElem_zip]
    rw [← hget]
    exact List.get_mem _ _ _

theorem mem_rewriteRefList (m : List (Nat × Nat)) (l : List Nat) (y : Nat) :
    y ∈ rewriteRefList m l ↔
      (∃ r ∈ l, (mapId m r).getD r = y) ∧ y ≠ 0 := by
  unfold rewriteRefList
  rw [List.mem_filter]
  simp [List.mem_map]

theorem get_congr (l : List Card) (i j : Nat) (hi : i < l.length)
    (hj : j < l.length) (hij : i = j) : l.get ⟨i, hi⟩ = l.get ⟨j, hj⟩ := by
  subst hij
  rfl

theorem import_length (s : DataStore) (payload : List Card)
    (newIds : List Nat) (now : Nat) :
    (importCards s payload newIds now).cards.length
      = s.cards.length + payload.length := by
  obtain ⟨added, hcards, hlen, _⟩ :=
    import_fold_decomp ((payload.map (fun c => c.id)).zip newIds) now payload s
  show (ensureAllCardsHaveNumbers (payload.foldl
    (importStep ((payload.map (fun c => c.id)).zip newIds) now) s)).cards.length
      = s.cards.length + payload.length
  rw [ensureAll_length, hcards, List.length_append, hlen]

theorem import_card_decomp (s : DataStore) (payload : List Card)
    (newIds : List Nat) (now : Nat) (k : Nat) (hk : k < payload.length)
    (h2 : s.cards.length + k < (importCards s payload newIds now).cards.length) :
    ∃ nn, (importCards s payload newIds now).cards.get
        ⟨s.cards.length + k, h2⟩ =
      restamp (rewriteCard ((payload.map (fun c => c.id)).zip newIds)
        (payload.get ⟨k, hk⟩)) nn now := by
  obtain ⟨added, hcards, hlen, hget⟩ :=
    import_fold_decomp ((payload.map (fun c => c.id)).zip newIds) now payload s
  have hk2 : k < added.length := by rw [hlen]; exact hk
  have hidx : s.cards.length + k < (payload.foldl
      (importStep ((payload.map (fun c => c.id)).zip newIds) now) s).cards.length := by
    rw [hcards, List.length_append]
    omega
  have hadd : (payload.foldl
      (importStep ((payload.map (fun c => c.id)).zip newIds) now) s).cards[s.cards.length + k]
      = added.get ⟨k, hk2⟩ := by
    rw [List.getElem_of_eq hcards hidx,
      List.getElem_append_right (Nat.le_add_right _ _)]
    simp [Nat.add_sub_cancel_left]
  have hens := ensureAll_eq_or_number (payload.foldl
    (importStep ((payload.map (fun c => c.id)).zip newIds) now) s)
    (s.cards.length + k) hidx h2
  obtain ⟨nn0, hx⟩ := hget k hk hk2
  rcases hens with heq | ⟨v, heq⟩
  · exact ⟨nn0, heq.trans (hadd.trans hx)⟩
  · refine ⟨some v, heq.trans ?_⟩
    rw [hadd, hx]
    rfl

/-- C8: the import rewrites the relationship references of each incoming card
only partially, and never drops an unresolved reference.  For the inserted
card at each payload position: the five fields `adjacentLocations`,
`presentCharacters`, `bonds`, `relatedLocations`, `relatedCharacters` are
rewritten by `.map(id => idMapping[id] || id).filter(id => id)` — a
reference that resolves in the old-to-new mapping is replaced, an
unresolved reference falls back to the old id and is kept (only falsy ids
are dropped), so a nonzero exporting-session reference outside the mapping
survives into the inserted card; and the `relatedEvents` and
`presentLocations` fields are not rewritten at all, being copied verbatim
from the incoming card. -/
theorem c8_import_reference_rewrite (s : DataStore) (payload : List Card)
    (newIds : List Nat) (now : Nat) (k : Nat) (hk : k < payload.length)
    (h2 : s.cards.length + k
      < (importCards s payload newIds now).cards.length) :
    (∀ φ ∈ [RField.adjacentLocations, RField.presentCharacters, RField.bonds,
        RField.relatedLocations, RField.relatedCharacters],
      getF ((importCards s payload newIds now).cards.get
          ⟨s.cards.length + k, h2⟩) φ =
        rewriteRefList ((payload.map (fun c => c.id)).zip newIds)
          (getF (payload.get ⟨k, hk⟩) φ)) ∧
    (∀ φ : RField, φ = RField.relatedEvents ∨ φ = RField.presentLocations →
      getF ((importCards s payload newIds now).cards.get
          ⟨s.cards.length + k, h2⟩) φ =
        getF (payload.get ⟨k, hk⟩) φ) ∧
    (∀ φ ∈ [RField.adjacentLocations, RField.presentCharacters, RField.bonds,
        RField.relatedLocations, RField.relatedCharacters],
      ∀ r ∈ getF (payload.get ⟨k, hk⟩) φ,
        r ∉ payload.map (fun c => c.id) → r ≠ 0 →
        r ∈ getF ((importCards s payload newIds now).cards.get
          ⟨s.cards.length + k, h2⟩) φ) := by
  obtain ⟨nn, hcard⟩ := import_card_decomp s payload newIds now k hk h2
  refine ⟨?_, ?_, ?_⟩
  · intro φ hφ
    rw [hcard, getF_restamp, rewriteCard_getF_rewritten _ _ _ hφ]
  · intro φ hφ
    rw [hcard, getF_restamp, rewriteCard_getF_verbatim _ _ _ hφ]
  · intro φ hφ r hr hrold hr0
    rw [hcard, getF_restamp, rewriteCard_getF_rewritten _ _ _ hφ,
      mem_rewriteRefList]
    refine ⟨⟨r, hr, ?_⟩, hr0⟩
    rw [mapId_zip_none _ _ _ hrold]
    rfl

/-- Witness for C8 at a concrete input: the single imported card's
`adjacentLocations` equals the rewrite of the incoming card's field, and its
unresolved nonzero reference 7 survives the import. -/
theorem c8_import_reference_rewrite_witness :
    getF ((importCards emptyStore c8payload [10] 9).cards.get
        ⟨0, by decide⟩) RField.adjacentLocations =
      rewriteRefList ((c8payload.map (fun c => c.id)).zip [10])
        (getF (c8payload.get ⟨0, by decide⟩) RField.adjacentLocations) ∧
    (7 : Nat) ∈ getF ((importCards emptyStore c8payload [10] 9).cards.get
        ⟨0, by decide⟩) RField.adjacentLocations := by
  have h := c8_import_reference_rewrite emptyStore c8payload [10] 9 0
    (by decide) (by decide)
  exact ⟨h.1 RField.adjacentLocations (by decide),
    h.2.2 RField.adjacentLocations (by decide) 7 (by decide) (by decide)
      (by decide)⟩

/-- C7: importing an export into a fresh empty store preserves the card
count, the names, types and content positionally, and gives every card the
fresh id generated at its position.  The relationship topology — an edge
between two imported cards exactly where the corresponding exported cards
had one — is preserved only for the five rewritten fields
`adjacentLocations`, `presentCharacters`, `bonds`, `relatedLocations`,
`relatedCharacters`; the `relatedEvents` and `presentLocations` fields are
instead copied verbatim with the exporting session's ids, so their edges
are not carried over to the renamed cards.  Hypotheses: one fresh id per
incoming card, exported ids pairwise distinct, fresh ids pairwise distinct,
truthy (nonzero), and distinct from every reference the payload holds. -/
theorem c7_import_topology (payload : List Card) (newIds : List Nat)
    (now : Nat)
    (hlen : newIds.length = payload.length)
    (hnd : (payload.map (fun c => c.id)).Nodup)
    (hnd2 : newIds.Nodup)
    (h0 : 0 ∉ newIds)
    (hfresh : ∀ c ∈ payload, ∀ φ : RField, ∀ r ∈ getF c φ, r ∉ newIds) :
    (importCards emptyStore payload newIds now).cards.length
        = payload.length ∧
    (∀ k (hk : k < payload.length)
        (hk2 : k < (importCards emptyStore payload newIds now).cards.length)
        (hk3 : k < newIds.length),
      ((importCards emptyStore payload newIds now).cards.get ⟨k, hk2⟩).name
          = (payload.get ⟨k, hk⟩).name ∧
      ((importCards emptyStore payload newIds now).cards.get ⟨k, hk2⟩).type
          = (payload.get ⟨k, hk⟩).type ∧
      ((importCards emptyStore payload newIds now).cards.get ⟨k, hk2⟩).resumo
          = (payload.get ⟨k, hk⟩).resumo ∧
      ((importCards emptyStore payload newIds now).cards.get ⟨k, hk2⟩).id
          = newIds.get ⟨k, hk3⟩) ∧
    (∀ k j (hk : k < payload.length) (hj : j < payload.length)
        (hk2 : k < (importCards emptyStore payload newIds now).cards.length)
        (hj2 : j < newIds.length) (φ : RField),
      φ ∈ [RField.adjacentLocations, RField.presentCharacters, RField.bonds,
        RField.relatedLocations, RField.relatedCharacters] →
      (newIds.get ⟨j, hj2⟩ ∈ getF
          ((importCards emptyStore payload newIds now).cards.get ⟨k, hk2⟩) φ ↔
        (payload.get ⟨j, hj⟩).id ∈ getF (payload.get ⟨k, hk⟩) φ)) ∧
    (∀ k (hk : k < payload.length)
        (hk2 : k < (importCards emptyStore payload newIds now).cards.length)
        (φ : RField), φ = RField.relatedEvents ∨ φ = RField.presentLocations →
      getF ((importCards emptyStore payload newIds now).cards.get
          ⟨k, hk2⟩) φ = getF (payload.get ⟨k, hk⟩) φ) := by
  have hdecomp : ∀ k (hk : k < payload.length)
      (hk2 : k < (importCards emptyStore payload newIds now).cards.length),
      ∃ nn, (importCards emptyStore payload newIds now).cards.get ⟨k, hk2⟩ =
        restamp (rewriteCard ((payload.map (fun c => c.id)).zip newIds)
          (payload.get ⟨k, hk⟩)) nn now := by
    intro k hk hk2
    have h2 : emptyStore.cards.length + k
        < (importCards emptyStore payload newIds now).cards.length := by
      simpa [emptyStore] using hk2
    obtain ⟨nn, hc⟩ := import_card_decomp emptyStore payload newIds now k hk h2
    refine ⟨nn, ?_⟩
    rw [get_congr _ k (emptyStore.cards.length + k) hk2 h2
      (by simp [emptyStore])]
    exact hc
  have hle : (payload.map (fun c => c.id)).length ≤ newIds.length :=
    le_of_eq (by rw [List.length_map, hlen])
  refine ⟨?_, ?_, ?_, ?_⟩
  · rw [import_length]
    simp [emptyStore]
  · intro k hk hk2 hk3
    obtain ⟨nn, hc⟩ := hdecomp k hk hk2
    have hko : k < (payload.map (fun c => c.id)).length := by
      rw [List.length_map]; exact hk
    have hmap := mapId_zip_get (payload.map (fun c => c.id)) newIds hnd hle
      k hko hk3
    have holdget : (payload.map (fun c => c.id)).get ⟨k, hko⟩
        = (payload.get ⟨k, hk⟩).id := by simp
    rw [holdget] at hmap
    refine ⟨?_, ?_, ?_, ?_⟩
    · rw [hc, restamp_name, rewriteCard_name]
    · rw [hc, restamp_type, rewriteCard_type]
    · rw [hc, restamp_resumo, rewriteCard_resumo]
    · rw [hc, restamp_id, rewriteCard_id, hmap]
      rfl
  · intro k j hk hj hk2 hj2 φ hφ
    obtain ⟨nn, hc⟩ := hdecomp k hk hk2
    rw [hc, getF_restamp, rewriteCard_getF_rewritten _ _ _ hφ,
      mem_rewriteRefList]
    constructor
    · rintro ⟨⟨r, hr, hrew⟩, hne⟩
      rcases hmr : mapId ((payload.map (fun c => c.id)).zip newIds) r
        with _ | w
      · exfalso
        rw [hmr] at hrew
        have hry : r = newIds.get ⟨j, hj2⟩ := by simpa using hrew
        exact hfresh (payload.get ⟨k, hk⟩) (List.get_mem payload k hk) φ r hr
          (by rw [hry]; exact List.get_mem newIds j hj2)
      · rw [hmr] at hrew
        have hwy : w = newIds.get ⟨j, hj2⟩ := by simpa using hrew
        have hmr2 : (((payload.map (fun c => c.id)).zip newIds).reverse).lookup
            r = some w := hmr
        have hmemz : (r, w) ∈ (payload.map (fun c => c.id)).zip newIds :=
          List.mem_reverse.mp (lookup_mem r w _ hmr2)
        obtain ⟨i, hi1, hi2, hgr, hgw⟩ :=
          mem_zip_exists_index (payload.map (fun c => c.id)) newIds r w hmemz
        have hij : (⟨i, hi2⟩ : Fin newIds.length) = ⟨j, hj2⟩ :=
          (hnd2.get_inj_iff).mp (by rw [hgw, hwy])
        have hij2 : i = j := congrArg Fin.val hij
        subst hij2
        have hr2 : r = (payload.get ⟨i, hj⟩).id := by
          rw [← hgr]
          simp
        exact hr2 ▸ hr
    · intro hmem
      have hjo : j < (payload.map (fun c => c.id)).length := by
        rw [List.length_map]; exact hj
      have hmap := mapId_zip_get (payload.map (fun c => c.id)) newIds hnd hle
        j hjo hj2
      have holdget : (payload.map (fun c => c.id)).get ⟨j, hjo⟩
          = (payload.get ⟨j, hj⟩).id := by simp
      rw [holdget] at hmap
      refine ⟨⟨(payload.get ⟨j, hj⟩).id, hmem, by rw [hmap]; rfl⟩, ?_⟩
      intro h00
      apply h0
      rw [← h00]
      exact List.get_mem newIds j hj2
  · intro k hk hk2 φ hφ
    obtain ⟨nn, hc⟩ := hdecomp k hk hk2
    rw [hc, getF_restamp, rewriteCard_getF_verbatim _ _ _ hφ]

/-- Witness for C7 at a concrete export: the imported location keeps its
name, and the rewritten `relatedLocations` edge between the two imported
cards is present under the fresh ids. -/
theorem c7_import_topology_witness :
    ((importCards emptyStore c7payload [10, 11] 9).cards.get
        ⟨1, by decide⟩).name = "L" ∧
    (11 : Nat) ∈ getF ((importCards emptyStore c7payload [10, 11] 9).cards.get
        ⟨0, by decide⟩) RField.relatedLocations := by
  have h := c7_import_topology c7payload [10, 11] 9 (by decide) (by decide)
    (by decide) (by decide) (by decide)
  refine ⟨?_, ?_⟩
  · have h2 := (h.2.1 1 (by decide) (by decide) (by decide)).1
    rw [h2]
    rfl
  · exact (h.2.2.1 0 1 (by decide) (by decide) (by decide) (by decide)
      RField.relatedLocations (by decide)).mpr (by decide)
